import Mathlib

/-!
Verification development for the BiblioParser repository.

The repository's core (src/parsers_pt.py, src/utils_pt.py, src/duplicate_remover.py)
is shallowly embedded here.  Python strings are modelled as lists of characters
(`PyStr`); every Python string primitive used by the source (strip, split, replace,
join, ...) is given an executable Lean counterpart with the same semantics for the
character classes that occur in the repository's inputs (ASCII plus the sentinel's
accented letters).  Each regular expression that the source applies is modelled by a
dedicated scanner function that reproduces Python `re` search/match semantics
(leftmost match, greedy/lazy backtracking) for that particular pattern.
-/

set_option maxRecDepth 20000
set_option linter.unusedVariables false

/-- A Python `str`, modelled as its list of characters. -/
abbrev PyStr := List Char

/-- Python whitespace characters (`str.strip`, `str.split`, regex `\s`), restricted to
the ASCII range that the repository's inputs use. -/
def pyIsSpace (c : Char) : Bool :=
  c = ' ' || c = '\t' || c = '\n' || c = '\r' || c = '\x0b' || c = '\x0c'

/-- Regex `\w` (word character), ASCII range. -/
def isWordChar (c : Char) : Bool := c.isAlphanum || c = '_'

/-- `s.lstrip()` for an arbitrary character class. -/
def pyDropLeft (p : Char → Bool) (s : PyStr) : PyStr := s.dropWhile p

/-- `s.rstrip()` for an arbitrary character class. -/
def pyDropRight (p : Char → Bool) (s : PyStr) : PyStr := (s.reverse.dropWhile p).reverse

/-- Python `s.strip()` (no argument: strips whitespace on both sides). -/
def pyStrip (s : PyStr) : PyStr := pyDropRight pyIsSpace (pyDropLeft pyIsSpace s)

/-- Python `s.rstrip(".,;")`. -/
def pyRStripPunct (s : PyStr) : PyStr := pyDropRight (fun c => c = '.' || c = ',' || c = ';') s

/-- `pre.isPrefixOf s` written out, to keep the development self-contained. -/
def pyStartsWith : PyStr → PyStr → Bool
  | [], _ => true
  | _ :: _, [] => false
  | p :: ps, c :: cs => p = c && pyStartsWith ps cs

/-- Case-insensitive prefix test (ASCII lowering), used for `(?i)` regexes. -/
def ciStartsWith : PyStr → PyStr → Bool
  | [], _ => true
  | _ :: _, [] => false
  | p :: ps, c :: cs => p.toLower = c.toLower && ciStartsWith ps cs

/-- Python `s.replace(pat, rep)` for a non-empty pattern: left-to-right,
non-overlapping, continuing after each replacement.  Fuel-driven structural
recursion; fuel `s.length` suffices because each step consumes at least one
character.  (The source never calls `replace` with an empty pattern; an empty
pattern leaves `s` unchanged here.) -/
def pyReplaceGo (pat rep : PyStr) : Nat → PyStr → PyStr
  | 0, s => s
  | _ + 1, [] => []
  | fuel + 1, c :: rest =>
    if pat.isEmpty then c :: rest
    else if pyStartsWith pat (c :: rest) then
      rep ++ pyReplaceGo pat rep fuel ((c :: rest).drop pat.length)
    else c :: pyReplaceGo pat rep fuel rest

/-- See `pyReplaceGo`. -/
def pyReplace (pat rep s : PyStr) : PyStr := pyReplaceGo pat rep s.length s

/-- Python `s.split("\n")` (keeps empty pieces; result is always non-empty). -/
def splitNl : PyStr → List PyStr
  | [] => [[]]
  | c :: rest =>
    if c = '\n' then [] :: splitNl rest
    else
      match splitNl rest with
      | [] => [[c]]
      | l :: ls => (c :: l) :: ls

/-- Python `s.split()` (split on whitespace runs, no empty pieces); `cur` is the
reversed word being accumulated. -/
def pySplitWsGo : PyStr → PyStr → List PyStr
  | cur, [] => if cur.isEmpty then [] else [cur.reverse]
  | cur, c :: rest =>
    if pyIsSpace c then
      if cur.isEmpty then pySplitWsGo [] rest else cur.reverse :: pySplitWsGo [] rest
    else pySplitWsGo (c :: cur) rest

/-- See `pySplitWsGo`. -/
def pySplitWs (s : PyStr) : List PyStr := pySplitWsGo [] s

/-- Python `sep.join(parts)`. -/
def pyJoin (sep : PyStr) : List PyStr → PyStr
  | [] => []
  | [p] => p
  | p :: q :: rest => p ++ sep ++ pyJoin sep (q :: rest)

/-- Python `s.isdigit()` restricted to ASCII digits: non-empty and all digits. -/
def pyIsDigitStr (s : PyStr) : Bool := !s.isEmpty && s.all Char.isDigit

/-- The repository's absence sentinel, `"Sem informação"`. -/
def semInfo : PyStr := ("Sem informação").data

/-- Whether a string has no leading and no trailing Python whitespace. -/
def trimmedB (s : PyStr) : Bool :=
  (match s.head? with
   | some c => !pyIsSpace c
   | none => true) &&
  (match s.reverse.head? with
   | some c => !pyIsSpace c
   | none => true)

/-! ### Models of the individual regular expressions used by the source -/

/-- One step of `re.search(r"\b(19|20)\d{2}\b", s)`: scan left to right carrying the
previous character (for the left word boundary), return the leftmost match.
`\b` holds at the string edge or next to a non-word character. -/
def yearScan (prev : Option Char) (s : PyStr) : Option PyStr :=
  match s with
  | a :: b :: c :: d :: rest =>
    if (match prev with
        | none => true
        | some p => !isWordChar p) &&
       ((a = '1' && b = '9') || (a = '2' && b = '0')) &&
       c.isDigit && d.isDigit &&
       (match rest with
        | [] => true
        | e :: _ => !isWordChar e) then
      some [a, b, c, d]
    else yearScan (some a) (b :: c :: d :: rest)
  | _ => none

/-- `re.search(r"\b(19|20)\d{2}\b", s)`, returning the matched text. -/
def regexSearchYear (s : PyStr) : Option PyStr := yearScan none s

/-- `re.match(r"^10\.\d+/.+", s)` as a Boolean: `10.` then one or more digits, a
slash, and at least one character that `.` can match (any character but `\n`). -/
def match10 (s : PyStr) : Bool :=
  match s with
  | '1' :: '0' :: '.' :: rest =>
    let ds := rest.takeWhile Char.isDigit
    !ds.isEmpty &&
      (match rest.dropWhile Char.isDigit with
       | '/' :: e :: _ => e != '\n'
       | _ => false)
  | _ => false

/-- Index of the first `'>'` in a string, if any. -/
def findGt : PyStr → Option Nat
  | [] => none
  | c :: rest => if c = '>' then some 0 else (findGt rest).map Nat.succ

/-- `re.sub(r"<[^>]+>", "", s)`: remove every `<...>` run with at least one
non-`>` character between the brackets (leftmost, non-overlapping).
Fuel-driven; fuel `s.length` suffices since each step consumes at least one
character. -/
def stripHtmlTagsGo : Nat → PyStr → PyStr
  | 0, s => s
  | _ + 1, [] => []
  | fuel + 1, c :: rest =>
    if c = '<' then
      match findGt rest with
      | some 0 => c :: stripHtmlTagsGo fuel rest
      | some (k + 1) => stripHtmlTagsGo fuel (rest.drop (k + 2))
      | none => c :: stripHtmlTagsGo fuel rest
    else c :: stripHtmlTagsGo fuel rest

/-- See `stripHtmlTagsGo`. -/
def stripHtmlTags (s : PyStr) : PyStr := stripHtmlTagsGo s.length s

/-- Python `str.isprintable() or str.isspace()` for one character, ASCII model:
control characters (below 0x20 and 0x7f) are dropped by `clean_abstract` unless
they are whitespace. -/
def printableOrSpace (c : Char) : Bool :=
  (0x20 ≤ c.val && c.val ≠ 0x7f) || pyIsSpace c

/-! ### utils_pt.py -/

/-- `utils_pt.extract_year_from_date`: empty input yields the sentinel, otherwise
the first `\b(19|20)\d{2}\b` token, otherwise the sentinel.  (There is no
verbatim 4-digit fallback in this function.) -/
def extract_year_from_date (s : PyStr) : PyStr :=
  if s.isEmpty then semInfo
  else
    match regexSearchYear s with
    | some y => y
    | none => semInfo

/-- `utils_pt.normalize_doi`: strips `doi:`/`DOI:` prefixes (anywhere, via
`str.replace`), whitespace, the two DOI URL prefixes, and trailing `.,;`.
It performs no format validation. -/
def normalize_doi (s : PyStr) : PyStr :=
  if s.isEmpty || s = semInfo then semInfo
  else
    let d1 := pyReplace ("DOI:").data [] (pyReplace ("doi:").data [] s)
    let d2 := pyStrip d1
    let d3 := pyReplace ("http://dx.doi.org/").data []
                (pyReplace ("https://doi.org/").data [] d2)
    let d4 := pyRStripPunct d3
    if d4.isEmpty then semInfo else d4

/-! ### The canonical record -/

/-- A parsed bibliographic record: the five canonical fields of the source's
article dictionaries.  (`source_file` is attached by the caller, outside the
parsing core.) -/
structure Article where
  title : PyStr
  authors : PyStr
  year : PyStr
  doi : PyStr
  abstract : PyStr
deriving DecidableEq, Repr

/-- The freshly initialised article: every field at the sentinel. -/
def allSem : Article := ⟨semInfo, semInfo, semInfo, semInfo, semInfo⟩

instance : Inhabited Article := ⟨allSem⟩

/-- Whether at least one field differs from the sentinel
(`any(value != "Sem informação" for value in article.values())`). -/
def anyKnown (a : Article) : Bool :=
  a.title ≠ semInfo || a.authors ≠ semInfo || a.year ≠ semInfo ||
  a.doi ≠ semInfo || a.abstract ≠ semInfo

/-! ### parsers_pt.py, RISParser helpers (duplicated verbatim in TXTParser) -/

namespace RISParser

/-- `RISParser._clean_doi`: strip prefixes, whitespace and trailing punctuation,
then validate with `re.match(r"^10\.\d+/.+", doi)`; `None` on failure. -/
def clean_doi (doi : PyStr) : Option PyStr :=
  if doi.isEmpty then none
  else
    let d1 := pyStrip (pyReplace ("DOI:").data [] (pyReplace ("doi:").data [] doi))
    let d2 := pyReplace ("http://dx.doi.org/").data []
                (pyReplace ("https://doi.org/").data [] d1)
    let d3 := pyRStripPunct d2
    if match10 d3 then some d3 else none

/-- `RISParser._clean_abstract`: strip `<...>` tags, collapse whitespace runs to
single spaces, drop non-printable characters, trim; `None` unless more than 10
characters remain. -/
def clean_abstract (abstract : PyStr) : Option PyStr :=
  if abstract.isEmpty then none
  else
    let a1 := stripHtmlTags abstract
    let a2 := pyJoin [' '] (pySplitWs a1)
    let a3 := a2.filter printableOrSpace
    let a4 := pyStrip a3
    if a4.length > 10 then some a4 else none

/-- A structured entry as produced by the external `rispy` library (only the keys
`_extract_ris_fields` reads).  `none` stands for an absent key. -/
structure RisEntry where
  title : Option PyStr
  primary_title : Option PyStr
  authors : List PyStr
  first_authors : List PyStr
  year : Option PyStr
  publication_year : Option PyStr
  doi : Option PyStr
  abstract : Option PyStr

/-- Python truthiness of `entry.get(k)`: an absent key and an empty string are
both falsy, so `entry.get("title") or entry.get("primary_title")` is the first
non-empty value. -/
def firstTruthy (a b : Option PyStr) : Option PyStr :=
  match a with
  | some v => if v.isEmpty then (match b with
      | some w => if w.isEmpty then none else some w
      | none => none) else some v
  | none => match b with
      | some w => if w.isEmpty then none else some w
      | none => none

/-- Title stage of `_extract_ris_fields`:
`entry.get("title") or entry.get("primary_title")`, stripped if truthy. -/
def schemaTitleStage (e : RisEntry) (a : Article) : Article :=
  match firstTruthy e.title e.primary_title with
  | some t => { a with title := pyStrip t }
  | none => a

/-- The author list of `_extract_ris_fields`: the truthy entries of `authors`
(else `first_authors`), stripped. -/
def schemaAuthorList (e : RisEntry) : List PyStr :=
  if !e.authors.isEmpty then (e.authors.filter (fun x => !x.isEmpty)).map pyStrip
  else if !e.first_authors.isEmpty then
    (e.first_authors.filter (fun x => !x.isEmpty)).map pyStrip
  else []

/-- Authors stage: join with `", "` when the list is non-empty. -/
def schemaAuthorsStage (e : RisEntry) (a : Article) : Article :=
  if !(schemaAuthorList e).isEmpty then
    { a with authors := pyJoin (", ").data (schemaAuthorList e) }
  else a

/-- Year stage: `entry.get("year") or entry.get("publication_year")`, first
`(19|20)dd` token. -/
def schemaYearStage (e : RisEntry) (a : Article) : Article :=
  match firstTruthy e.year e.publication_year with
  | some y =>
    (match regexSearchYear y with
     | some tok => { a with year := tok }
     | none => a)
  | none => a

/-- DOI stage. -/
def schemaDoiStage (e : RisEntry) (a : Article) : Article :=
  match e.doi with
  | some d =>
    if d.isEmpty then a
    else
      (match clean_doi d with
       | some dc => { a with doi := dc }
       | none => a)
  | none => a

/-- Abstract stage. -/
def schemaAbstractStage (e : RisEntry) (a : Article) : Article :=
  match e.abstract with
  | some ab =>
    if ab.isEmpty then a
    else
      (match clean_abstract ab with
       | some ac => { a with abstract := ac }
       | none => a)
  | none => a

/-- `RISParser._extract_ris_fields`: the five stages applied in source order. -/
def extract_ris_fields (e : RisEntry) : Article :=
  schemaAbstractStage e (schemaDoiStage e (schemaYearStage e
    (schemaAuthorsStage e (schemaTitleStage e allSem))))

end RISParser

/-- `tag` at the current position, then regex `\s*-`: the whitespace run after the
tag must be followed by `-` (no shorter run can succeed since whitespace is not
`-`).  Returns the text after the `-`. -/
def tagDash (tag : PyStr) (s : PyStr) : Option PyStr :=
  if pyStartsWith tag s then
    match (s.drop tag.length).dropWhile pyIsSpace with
    | '-' :: v => some v
    | _ => none
  else none

/-- First match of a `MULTILINE`-anchored pattern: try `f` at every `^` position
(string start and every position after a newline), leftmost first. -/
def mlFirst (f : PyStr → Option PyStr) : Bool → PyStr → Option PyStr
  | _, [] => none
  | atStart, c :: rest =>
    match (if atStart then f (c :: rest) else none) with
    | some r => some r
    | none => mlFirst f (c = '\n') rest

/-- The lookahead `(?=\n[A-Z]{2}\s*-|\Z)` of the custom RIS field regexes:
holds at end of string, or before a newline followed by a two-letter uppercase
tag, optional whitespace and a dash. -/
def risBoundary (s : PyStr) : Bool :=
  match s with
  | [] => true
  | '\n' :: a :: b :: r =>
    a.isUpper && b.isUpper &&
      (match r.dropWhile pyIsSpace with
       | '-' :: _ => true
       | _ => false)
  | _ => false

/-- Lazy `(.+?)` under `DOTALL` up to the first position where `risBoundary`
holds: at least one character, growing until the boundary. -/
def lazyCapture : PyStr → PyStr
  | [] => []
  | c :: rest => c :: (if risBoundary rest then [] else lazyCapture rest)

/-- Group 1 of `\s*(.+?)(?=\n[A-Z]{2}\s*-|\Z)` applied after the dash: the greedy
`\s*` eats the maximal whitespace run; if nothing is left the engine backtracks
one whitespace character to satisfy `.+?` (which then matches that single
character); if there is nothing at all, the match fails. -/
def risContentDotall (v : PyStr) : Option PyStr :=
  let w := v.takeWhile pyIsSpace
  match v.drop w.length with
  | [] =>
    (match w.reverse with
     | [] => none
     | l :: _ => some [l])
  | v2 => some (lazyCapture v2)

/-- Group 1 of `\s*(.+?)$` (no `DOTALL`) applied after the dash, together with
the remainder of the string after the match (for `findall` continuation).
The capture runs to the end of the line; when the greedy `\s*` consumes
everything, the engine backtracks so that `.+?` matches the last
non-newline whitespace character (`$` then holds after it). -/
def risContentLine (v : PyStr) : Option (PyStr × PyStr) :=
  let w := v.takeWhile pyIsSpace
  match v.drop w.length with
  | [] =>
    (match w.reverse.dropWhile (fun c => c = '\n') with
     | [] => none
     | l :: _ => some ([l], []))
  | v2 =>
    let cap := v2.takeWhile (fun c => c ≠ '\n')
    some (cap, v2.drop cap.length)

/-- `re.findall(r"^TAG\s*-\s*(.+?)$", record, re.MULTILINE)`: all matches, left to
right, continuing after each match.  Fuel-driven recursion; the fuel
`s.length + 1` is sufficient because every step consumes at least one
character. -/
def mlFindall (tag : PyStr) : Nat → Bool → PyStr → List PyStr
  | 0, _, _ => []
  | _ + 1, _, [] => []
  | fuel + 1, atStart, c :: rest =>
    match (if atStart then (tagDash tag (c :: rest)).bind risContentLine else none) with
    | some (cap, after) => cap :: mlFindall tag fuel false after
    | none => mlFindall tag fuel (c = '\n') rest

namespace RISParser

/-- `re.split(r"\nER\s*-", text)` used by `_custom_ris_parse`: the pattern matches
a newline, `ER`, the maximal whitespace run, then a dash. -/
def risSplitGo : Nat → PyStr → PyStr → List PyStr
  | 0, acc, s => [acc.reverse ++ s]
  | _ + 1, acc, [] => [acc.reverse]
  | fuel + 1, acc, c :: rest =>
    if c = '\n' && pyStartsWith ("ER").data rest &&
       (match (rest.drop 2).dropWhile pyIsSpace with
        | '-' :: _ => true
        | _ => false) then
      let w := (rest.drop 2).takeWhile pyIsSpace
      acc.reverse :: risSplitGo fuel [] ((rest.drop 2).drop (w.length + 1))
    else risSplitGo fuel (c :: acc) rest

/-- TI stage of `_custom_ris_parse`'s per-record body: first
`^TI\s*-\s*(.+?)(?=\n[A-Z]{2}\s*-|\Z)` match, stripped, newlines replaced by
spaces, whitespace runs collapsed by `" ".join(title.split())`. -/
def risTitleStage (record : PyStr) (a : Article) : Article :=
  match mlFirst (fun s => (tagDash ("TI").data s).bind risContentDotall) true record with
  | some g =>
    let t1 := (pyStrip g).map (fun c => if c = '\n' then ' ' else c)
    let t2 := pyJoin [' '] (pySplitWs t1)
    if !t2.isEmpty then { a with title := t2 } else a
  | none => a

/-- AU stage: `findall`, stripped, empties dropped, joined with `", "`. -/
def risAuthorsStage (record : PyStr) (a : Article) : Article :=
  let aus := ((mlFindall ("AU").data (record.length + 1) true record).map pyStrip).filter
      (fun x => !x.isEmpty)
  if !aus.isEmpty then { a with authors := pyJoin (", ").data aus } else a

/-- Group 1 of `\s*(\d{4})` after the dash. -/
def fourDigits (v : PyStr) : Option PyStr :=
  let four := (v.dropWhile pyIsSpace).take 4
  if four.length = 4 && four.all Char.isDigit then some four else none

/-- PY (else DA) stage: `^PY\s*-\s*(\d{4})`. -/
def risYearStage (record : PyStr) (a : Article) : Article :=
  match (match mlFirst (fun s => (tagDash ("PY").data s).bind fourDigits) true record with
         | some y => some y
         | none => mlFirst (fun s => (tagDash ("DA").data s).bind fourDigits) true record) with
  | some y => { a with year := y }
  | none => a

/-- DO stage: first `^DO\s*-\s*(.+?)$` match, stripped, cleaned. -/
def risDoiStage (record : PyStr) (a : Article) : Article :=
  match mlFirst (fun s => ((tagDash ("DO").data s).bind risContentLine).map Prod.fst)
      true record with
  | some d =>
    (match clean_doi (pyStrip d) with
     | some dc => { a with doi := dc }
     | none => a)
  | none => a

/-- AB stage: like TI, then `_clean_abstract`. -/
def risAbstractStage (record : PyStr) (a : Article) : Article :=
  match mlFirst (fun s => (tagDash ("AB").data s).bind risContentDotall) true record with
  | some g =>
    (match clean_abstract ((pyStrip g).map (fun c => if c = '\n' then ' ' else c)) with
     | some ac => { a with abstract := ac }
     | none => a)
  | none => a

/-- One record of `_custom_ris_parse` (the per-record body of the loop): the
five field extractions applied in source order to the all-sentinel article. -/
def extract_custom_ris (record : PyStr) : Article :=
  risAbstractStage record (risDoiStage record (risYearStage record
    (risAuthorsStage record (risTitleStage record allSem))))

/-- `RISParser._custom_ris_parse`: split on `\nER\s*-`, skip blank records,
extract each record (no all-sentinel filter is applied). -/
def custom_ris_parse (t : PyStr) : List Article :=
  ((risSplitGo (t.length + 1) [] t).filter (fun r => !(pyStrip r).isEmpty)).map
    extract_custom_ris

end RISParser

/-! ### parsers_pt.py, TXTParser -/

/-- `re.search(pat, s)` for a pattern with no `^` anchor: try `f` at every
position, including the end-of-string position. -/
def reSearchB (f : PyStr → Bool) : PyStr → Bool
  | [] => f []
  | c :: rest => f (c :: rest) || reSearchB f rest

/-- `re.search(pat, s, re.MULTILINE)` for a `^`-anchored pattern: try `f` at the
string start and after every newline. -/
def mlSearchB (f : PyStr → Bool) : Bool → PyStr → Bool
  | atStart, [] => atStart && f []
  | atStart, c :: rest => (atStart && f (c :: rest)) || mlSearchB f (c = '\n') rest

namespace TXTParser

/-- The five dialects recognised by `TXTParser._detect_format`. -/
inductive TxtFormat where
  | citation_export
  | records_format
  | er_terminated
  | full_fields
  | pubmed
deriving DecidableEq, Repr

/-- `r"Record #\d+ of \d+"` at the current position.  The greedy `\d+` runs are
maximal and deterministic (a digit run followed by a non-digit cannot be
re-split). -/
def recordHashAt (s : PyStr) : Bool :=
  if pyStartsWith ("Record #").data s then
    let u := s.drop 8
    let ds := u.takeWhile Char.isDigit
    !ds.isEmpty &&
      (let v := u.drop ds.length
       pyStartsWith (" of ").data v &&
         (match v.drop 4 with
          | e :: _ => e.isDigit
          | [] => false))
  else false

/-- `r"RECORD \d+"` at the current position. -/
def recordNumAt (s : PyStr) : Bool :=
  pyStartsWith ("RECORD ").data s &&
    (match s.drop 7 with
     | e :: _ => e.isDigit
     | [] => false)

/-- `r"^TITLE\s*$"` (`MULTILINE`) at a line-start position: `TITLE` followed by a
whitespace run that reaches the end of the string or contains a newline (`$`
matches at the end or before a `\n`; `\s*` may consume newlines before `$`
fires). -/
def titleLineAt (s : PyStr) : Bool :=
  pyStartsWith ("TITLE").data s &&
    (let u := s.drop 5
     let w := u.takeWhile pyIsSpace
     (u.drop w.length).isEmpty || w.any (fun d => d = '\n'))

/-- `re.search(r"\nER\s*\n", s)`: a newline, `ER`, then a whitespace run that
contains another newline. -/
def containsErLine : PyStr → Bool
  | [] => false
  | c :: rest =>
    (c = '\n' && pyStartsWith ("ER").data rest &&
      ((rest.drop 2).takeWhile pyIsSpace).any (fun d => d = '\n')) ||
    containsErLine rest

/-- `(?i)^<label>s?\s*:` at a line-start position (the optional plural `s` only
for the `Authors?` pattern).  Whitespace before the colon may span newlines,
exactly as `\s*` does in the source regex. -/
def labelColonAt (lbl : PyStr) (allowS : Bool) (s : PyStr) : Bool :=
  if ciStartsWith lbl s then
    let rest := s.drop lbl.length
    let rest2 :=
      if allowS then
        match rest with
        | c :: rr => if c.toLower = 's' then rr else rest
        | [] => rest
      else rest
    match rest2.dropWhile pyIsSpace with
    | ':' :: _ => true
    | _ => false
  else false

/-- The number of the five full-field label patterns that match somewhere in the
text (each counted once, as in the source's generator expression). -/
def fullFieldCount (t : PyStr) : Nat :=
  (if mlSearchB (labelColonAt ("author").data true) true t then 1 else 0) +
  (if mlSearchB (labelColonAt ("title").data false) true t then 1 else 0) +
  (if mlSearchB (labelColonAt ("year").data false) true t then 1 else 0) +
  (if mlSearchB (labelColonAt ("abstract").data false) true t then 1 else 0) +
  (if mlSearchB (labelColonAt ("doi").data false) true t then 1 else 0)

/-- `TXTParser._detect_format`: five rules, first match wins. -/
def detect_format (t : PyStr) : TxtFormat :=
  if reSearchB recordHashAt t then .citation_export
  else if reSearchB recordNumAt t && mlSearchB titleLineAt true t then .records_format
  else if containsErLine t then .er_terminated
  else if fullFieldCount t ≥ 2 then .full_fields
  else .pubmed

/-- Start offsets of every position where `f` matches (`finditer` start
positions; the three marker patterns used for segmentation cannot overlap
their own instances, so all matching positions coincide with `finditer`'s).
`lineAnchored` selects `MULTILINE ^` anchoring. -/
def matchPositionsGo (f : PyStr → Bool) (lineAnchored : Bool) :
    Nat → Bool → PyStr → List Nat
  | _, _, [] => []
  | i, atStart, c :: rest =>
    if (!lineAnchored || atStart) && f (c :: rest) then
      i :: matchPositionsGo f lineAnchored (i + 1) (c = '\n') rest
    else matchPositionsGo f lineAnchored (i + 1) (c = '\n') rest

/-- Segments of `t` running from each start offset to the next one (or to the end
of the text), as in `_split_records`'s position loops. -/
def segmentsFrom (t : PyStr) : List Nat → List PyStr
  | [] => []
  | p :: rest =>
    ((t.drop p).take ((match rest with
      | q :: _ => q
      | [] => t.length) - p)) :: segmentsFrom t rest

/-- `re.split(r"\nER\s*-?\s*\n", s)` match helper: walking the region of
whitespace with at most one dash after `\nER`, the match extends to the last
newline inside the region (greedy `\s*` with backtracking); returns that
newline's offset into the region, if the region contains one. -/
def wsDashLastNl : PyStr → Bool → Nat → Option Nat → Option Nat
  | [], _, _, best => best
  | c :: rest, dashSeen, pos, best =>
    if pyIsSpace c then
      wsDashLastNl rest dashSeen (pos + 1) (if c = '\n' then some pos else best)
    else if c = '-' && !dashSeen then wsDashLastNl rest true (pos + 1) best
    else best

/-- `re.split(r"\nER\s*-?\s*\n", s)`: fuel-driven scan (fuel `s.length + 1`
suffices since every step consumes at least one character). -/
def erSplitGo : Nat → PyStr → PyStr → List PyStr
  | 0, acc, s => [acc.reverse ++ s]
  | _ + 1, acc, [] => [acc.reverse]
  | fuel + 1, acc, c :: rest =>
    if c = '\n' && pyStartsWith ("ER").data rest then
      match wsDashLastNl (rest.drop 2) false 0 none with
      | some k => acc.reverse :: erSplitGo fuel [] ((rest.drop 2).drop (k + 1))
      | none => erSplitGo fuel (c :: acc) rest
    else erSplitGo fuel (c :: acc) rest

/-- `TXTParser._split_records`.  Note that the dialects `full_fields` and
`pubmed` both fall into the final `else` branch, which segments on `^PMID-`
line starts. -/
def split_records (t : PyStr) (fmt : TxtFormat) : List PyStr :=
  match fmt with
  | .citation_export =>
    ((segmentsFrom t (matchPositionsGo recordHashAt false 0 true t)).map pyStrip).filter
      (fun r => !r.isEmpty)
  | .records_format =>
    ((segmentsFrom t (matchPositionsGo recordNumAt true 0 true t)).map pyStrip).filter
      (fun r => !r.isEmpty)
  | .er_terminated =>
    ((erSplitGo (t.length + 1) [] t).map pyStrip).filter (fun r => !r.isEmpty)
  | _ =>
    ((segmentsFrom t
        (matchPositionsGo (fun s => pyStartsWith ("PMID-").data s) true 0 true t)).map
      pyStrip).filter (fun r => !r.isEmpty)

/-- Duplicates of the RIS cleaning helpers (the source repeats the same two
method bodies verbatim inside `TXTParser`). -/
def clean_doi : PyStr → Option PyStr := RISParser.clean_doi

/-- See `clean_doi`. -/
def clean_abstract : PyStr → Option PyStr := RISParser.clean_abstract

/-- State of the shared per-line scanning loop: the article built so far, the
open field, and its accumulated content lines. -/
structure ScanState where
  art : Article
  cur : Option PyStr
  acc : List PyStr

/-- Initial scan state. -/
def initState : ScanState := ⟨allSem, none, []⟩

/-- Flush the open field through a field processor
(`if current_field and current_content: process(...)`). -/
def flushWith (proc : Article → PyStr → PyStr → Article) (st : ScanState) : Article :=
  match st.cur, st.acc with
  | some f, c :: cs => proc st.art f (pyJoin [' '] (c :: cs))
  | _, _ => st.art

/-- `TXTParser._process_citation_export_field`. -/
def process_citation_export_field (a : Article) (fieldCode content0 : PyStr) : Article :=
  let content := pyStrip content0
  if content.isEmpty then a
  else if fieldCode = ("TI").data then { a with title := content }
  else if fieldCode = ("AU").data then
    (if a.authors = semInfo then { a with authors := content }
     else { a with authors := a.authors ++ (", ").data ++ content })
  else if fieldCode = ("YR").data then
    (match regexSearchYear content with
     | some y => { a with year := y }
     | none => if pyIsDigitStr content && content.length = 4 then { a with year := content }
               else a)
  else if fieldCode = ("DOI").data then
    (match clean_doi content with
     | some dc => { a with doi := dc }
     | none => a)
  else if fieldCode = ("AB").data then
    (match clean_abstract content with
     | some ac => { a with abstract := ac }
     | none => a)
  else a

/-- `TXTParser._process_records_field`. -/
def process_records_field (a : Article) (fieldName content0 : PyStr) : Article :=
  let content := pyStrip content0
  if content.isEmpty then a
  else if fieldName = ("TITLE").data then { a with title := content }
  else if fieldName = ("AUTHOR NAMES").data then { a with authors := content }
  else if fieldName = ("PUBLICATION YEAR").data then
    (match regexSearchYear content with
     | some y => { a with year := y }
     | none => if pyIsDigitStr content && content.length = 4 then { a with year := content }
               else a)
  else if fieldName = ("DOI").data then
    (match clean_doi content with
     | some dc => { a with doi := dc }
     | none => a)
  else if fieldName = ("ABSTRACT").data then
    (match clean_abstract content with
     | some ac => { a with abstract := ac }
     | none => a)
  else a

/-- `TXTParser._process_full_field` (the incoming field name is already
lower-case; the function lowers it again, a no-op that we reproduce by matching
the lowered names). -/
def process_full_field (a : Article) (fieldName content0 : PyStr) : Article :=
  let content := pyStrip content0
  if content.isEmpty then a
  else if fieldName = ("title").data then { a with title := content }
  else if fieldName = ("authors").data || fieldName = ("author").data then
    { a with authors := content }
  else if fieldName = ("year").data then
    (match regexSearchYear content with
     | some y => { a with year := y }
     | none => if pyIsDigitStr content && content.length = 4 then { a with year := content }
               else a)
  else if fieldName = ("doi").data then
    (match clean_doi content with
     | some dc => { a with doi := dc }
     | none => a)
  else if fieldName = ("abstract").data then
    (match clean_abstract content with
     | some ac => { a with abstract := ac }
     | none => a)
  else a

/-- `TXTParser._process_er_field`.  (The branches for `A1`, `A2` and `Y1` are
unreachable through the `[A-Z]{2}` line regex but are reproduced from the
source.) -/
def process_er_field (a : Article) (fieldCode content0 : PyStr) : Article :=
  let content := pyStrip content0
  if content.isEmpty then a
  else if fieldCode = ("TI").data then { a with title := content }
  else if fieldCode = ("AU").data || fieldCode = ("A1").data || fieldCode = ("A2").data then
    (if a.authors = semInfo then { a with authors := content }
     else { a with authors := a.authors ++ (", ").data ++ content })
  else if fieldCode = ("PY").data || fieldCode = ("Y1").data then
    (match regexSearchYear content with
     | some y => { a with year := y }
     | none => a)
  else if fieldCode = ("DI").data || fieldCode = ("DO").data then
    (match clean_doi content with
     | some dc => { a with doi := dc }
     | none => a)
  else if fieldCode = ("AB").data then
    (match clean_abstract content with
     | some ac => { a with abstract := ac }
     | none => a)
  else a

/-- The capture group of `re.search(r"(.+?)\s*\[doi\]", content, re.IGNORECASE)`:
the shortest non-empty prefix followed by optional whitespace and `[doi]`
(case-insensitive). -/
def doiBracketCapture : PyStr → Option PyStr
  | [] => none
  | c :: rest =>
    if ciStartsWith ("[doi]").data (rest.dropWhile pyIsSpace) then some [c]
    else (doiBracketCapture rest).map (fun g => c :: g)

/-- `TXTParser._process_pubmed_field`. -/
def process_pubmed_field (a : Article) (fieldCode content0 : PyStr) : Article :=
  let content := pyStrip content0
  if content.isEmpty then a
  else if fieldCode = ("TI").data then { a with title := content }
  else if fieldCode = ("AU").data || fieldCode = ("FAU").data then
    (if a.authors = semInfo then { a with authors := content }
     else { a with authors := a.authors ++ (", ").data ++ content })
  else if fieldCode = ("DP").data then
    (match regexSearchYear content with
     | some y => { a with year := y }
     | none => a)
  else if fieldCode = ("AB").data then
    (match clean_abstract content with
     | some ac => { a with abstract := ac }
     | none => a)
  else if fieldCode = ("AID").data || fieldCode = ("LID").data then
    (match doiBracketCapture content with
     | some g =>
       (match clean_doi (pyStrip g) with
        | some dc => { a with doi := dc }
        | none => a)
     | none => a)
  else a

/-- The line regex `r"^(ID|AU|TI|SO|YR|XR|PT|KY|AB|DOI|US):\s*(.*)$"` of the
citation-export extractor: the alternatives are mutually non-ambiguous, so the
match is the unique tag followed directly by a colon. -/
def citLineTag (line : PyStr) : Option (PyStr × PyStr) :=
  (([("ID").data, ("AU").data, ("TI").data, ("SO").data, ("YR").data, ("XR").data,
     ("PT").data, ("KY").data, ("AB").data, ("DOI").data, ("US").data].find?
      (fun t => pyStartsWith (t ++ [':']) line)).map
    (fun t => (t, (line.drop (t.length + 1)).dropWhile pyIsSpace)))

/-- Loop body of `_extract_citation_export_format`. -/
def citation_step (st : ScanState) (line0 : PyStr) : ScanState :=
  let line := pyStrip line0
  if line.isEmpty || pyStartsWith ("Record #").data line then st
  else
    match citLineTag line with
    | some (tag, g2) =>
      ⟨flushWith process_citation_export_field st, some tag,
       if g2.isEmpty then [] else [g2]⟩
    | none =>
      match st.cur with
      | some _ => ⟨st.art, st.cur, st.acc ++ [line]⟩
      | none => st

/-- `TXTParser._extract_citation_export_format`. -/
def extract_citation_export_format (record : PyStr) : Article :=
  flushWith process_citation_export_field ((splitNl record).foldl citation_step initState)

/-- Loop body of `_extract_records_format` (operates on the raw line; only
indented lines continue a field). -/
def records_step (st : ScanState) (line : PyStr) : ScanState :=
  let stripped := pyStrip line
  if stripped.isEmpty || pyStartsWith ("RECORD ").data stripped then st
  else if stripped = ("TITLE").data || stripped = ("AUTHOR NAMES").data ||
          stripped = ("PUBLICATION YEAR").data || stripped = ("ABSTRACT").data ||
          stripped = ("DOI").data then
    ⟨flushWith process_records_field st, some stripped, []⟩
  else if st.cur.isSome &&
          (pyStartsWith ("  ").data line || pyStartsWith ("\t").data line) then
    ⟨st.art, st.cur, st.acc ++ [stripped]⟩
  else st

/-- `TXTParser._extract_records_format`. -/
def extract_records_format (record : PyStr) : Article :=
  flushWith process_records_field ((splitNl record).foldl records_step initState)

/-- The label regex `(?i)^(Authors?|Title|Year|DOI|Abstract)\s*:\s*(.*)$` of the
full-fields extractor, returning the lowered group 1 and group 2. -/
def fullFieldLabel (line : PyStr) : Option (PyStr × PyStr) :=
  let tryLbl : PyStr → PyStr → Option (PyStr × PyStr) := fun lbl canon =>
    if ciStartsWith lbl line then
      match (line.drop lbl.length).dropWhile pyIsSpace with
      | ':' :: v => some (canon, v.dropWhile pyIsSpace)
      | _ => none
    else none
  let tryAuthor : Option (PyStr × PyStr) :=
    if ciStartsWith ("author").data line then
      let rest := line.drop 6
      let sTaken : Bool := match rest with
        | c :: _ => c.toLower = 's'
        | [] => false
      let rest2 := if sTaken then rest.drop 1 else rest
      match rest2.dropWhile pyIsSpace with
      | ':' :: v =>
        some ((if sTaken then ("authors").data else ("author").data), v.dropWhile pyIsSpace)
      | _ => none
    else none
  match tryAuthor with
  | some r => some r
  | none =>
    match tryLbl ("title").data ("title").data with
    | some r => some r
    | none =>
      match tryLbl ("year").data ("year").data with
      | some r => some r
      | none =>
        match tryLbl ("doi").data ("doi").data with
        | some r => some r
        | none => tryLbl ("abstract").data ("abstract").data

/-- Loop body of `_extract_full_fields_format`. -/
def full_fields_step (st : ScanState) (line : PyStr) : ScanState :=
  match fullFieldLabel line with
  | some (canon, g2) =>
    ⟨flushWith process_full_field st, some canon,
     if (pyStrip g2).isEmpty then [] else [g2]⟩
  | none =>
    if !(pyStrip line).isEmpty && st.cur.isSome then
      if pyStartsWith ("  ").data line || pyStartsWith ("\t").data line then
        ⟨st.art, st.cur, st.acc ++ [pyStrip line]⟩
      else st
    else st

/-- `TXTParser._extract_full_fields_format`. -/
def extract_full_fields_format (record : PyStr) : Article :=
  flushWith process_full_field ((splitNl record).foldl full_fields_step initState)

/-- The line regex `r"^([A-Z]{2})\s*-?\s*(.*)$"` of the ER extractor: two capital
letters, optional whitespace, an optional dash, optional whitespace, rest. -/
def erLineTag (line : PyStr) : Option (PyStr × PyStr) :=
  match line with
  | a :: b :: rest =>
    if a.isUpper && b.isUpper then
      let u := rest.dropWhile pyIsSpace
      let g2 := match u with
        | '-' :: v => v.dropWhile pyIsSpace
        | _ => u
      some ([a, b], g2)
    else none
  | _ => none

/-- Loop body of `_extract_er_terminated_format` (lines are stripped first, so
the indented-continuation branch can never fire; it is reproduced
nevertheless). -/
def er_step (st : ScanState) (line0 : PyStr) : ScanState :=
  let line := pyStrip line0
  if line.isEmpty || line = ("ER").data then st
  else
    match erLineTag line with
    | some (tag, g2) =>
      ⟨flushWith process_er_field st, some tag, if g2.isEmpty then [] else [g2]⟩
    | none =>
      if st.cur.isSome &&
         (pyStartsWith ("  ").data line || pyStartsWith ("\t").data line) then
        ⟨st.art, st.cur, st.acc ++ [line]⟩
      else st

/-- `TXTParser._extract_er_terminated_format`. -/
def extract_er_terminated_format (record : PyStr) : Article :=
  flushWith process_er_field ((splitNl record).foldl er_step initState)

/-- The line regex `r"^([A-Z]+)\s*-\s*(.*)$"` of the PubMed extractor: the
maximal run of capital letters, optional whitespace, a mandatory dash, optional
whitespace, rest. -/
def pubmedLineTag (line : PyStr) : Option (PyStr × PyStr) :=
  let u := line.takeWhile Char.isUpper
  if u.isEmpty then none
  else
    match (line.drop u.length).dropWhile pyIsSpace with
    | '-' :: v => some (u, v.dropWhile pyIsSpace)
    | _ => none

/-- Loop body of `_extract_pubmed_format`. -/
def pubmed_step (st : ScanState) (line0 : PyStr) : ScanState :=
  let line := pyStrip line0
  if line.isEmpty then st
  else
    match pubmedLineTag line with
    | some (tag, g2) =>
      ⟨flushWith process_pubmed_field st, some tag, if g2.isEmpty then [] else [g2]⟩
    | none =>
      match st.cur with
      | some _ => ⟨st.art, st.cur, st.acc ++ [line]⟩
      | none => st

/-- `TXTParser._extract_pubmed_format`. -/
def extract_pubmed_format (record : PyStr) : Article :=
  flushWith process_pubmed_field ((splitNl record).foldl pubmed_step initState)

/-- `TXTParser._extract_txt_fields`: dispatch on the detected dialect. -/
def extract_txt_fields (record : PyStr) (fmt : TxtFormat) : Article :=
  match fmt with
  | .citation_export => extract_citation_export_format record
  | .records_format => extract_records_format record
  | .full_fields => extract_full_fields_format record
  | .er_terminated => extract_er_terminated_format record
  | .pubmed => extract_pubmed_format record

/-- `TXTParser.parse`: detect the dialect, segment, skip blank records, extract,
and keep only records with at least one known field. -/
def parse (t : PyStr) : List Article :=
  let fmt := detect_format t
  (((split_records t fmt).filter (fun r => !(pyStrip r).isEmpty)).map
    (fun r => extract_txt_fields r fmt)).filter anyKnown

end TXTParser

/-! ### duplicate_remover.py -/

namespace DuplicateRemover

/-- `re.sub(r"\s+", " ", s)`: collapse each maximal whitespace run to a single
space.  The flag records whether the previous character belonged to a run. -/
def collapseWsGo : Bool → PyStr → PyStr
  | _, [] => []
  | inRun, c :: rest =>
    if pyIsSpace c then
      if inRun then collapseWsGo true rest else ' ' :: collapseWsGo true rest
    else c :: collapseWsGo false rest

/-- See `collapseWsGo`. -/
def collapseWs (s : PyStr) : PyStr := collapseWsGo false s

/-- `DuplicateRemover._normalize_title`: lower-case, drop characters that are
neither word characters nor whitespace, collapse whitespace runs to single
spaces, strip. -/
def normalize_title (title : PyStr) : PyStr :=
  if title.isEmpty || title = semInfo then []
  else
    pyStrip (collapseWs ((title.map Char.toLower).filter
      (fun c => isWordChar c || pyIsSpace c)))

/-- `DuplicateRemover._normalize_doi`: strip prefixes and whitespace,
lower-case.  (Unlike `utils_pt.normalize_doi` there is no punctuation strip and
the result is lowered.) -/
def normalize_doi_cmp (doi : PyStr) : PyStr :=
  if doi.isEmpty || doi = semInfo then []
  else
    let d1 := pyStrip (pyReplace ("DOI:").data [] (pyReplace ("doi:").data [] doi))
    let d2 := pyReplace ("http://dx.doi.org/").data []
                (pyReplace ("https://doi.org/").data [] d1)
    d2.map Char.toLower

/-- `DuplicateRemover._titles_are_similar` with the default threshold `0.9`:
Jaccard similarity of the whitespace-split word sets.  The float comparison
`intersection/union >= 0.9` is modelled exactly by `10·|∩| ≥ 9·|∪|` (for the
only borderline ratios, multiples of 9/10, IEEE division is exact enough that
both sides agree). -/
def titles_are_similar (t1 t2 : PyStr) : Bool :=
  if t1.isEmpty || t2.isEmpty then false
  else
    let w1 := (pySplitWs t1).dedup
    let w2 := (pySplitWs t2).dedup
    if w1.isEmpty || w2.isEmpty then false
    else
      let inter := (w1.filter (fun w => w ∈ w2)).length
      let union := ((w1 ++ w2).dedup).length
      10 * inter ≥ 9 * union

/-- `DuplicateRemover._find_title_matches`: ascending indices of unprocessed
rows with a known, similar title. -/
def find_title_matches (rs : List Article) (title : PyStr) (processed : List Nat) :
    List Nat :=
  if title = semInfo then []
  else
    let nt := normalize_title title
    (List.range rs.length).filter (fun i =>
      i ∉ processed && (rs.getD i default).title ≠ semInfo &&
      titles_are_similar nt (normalize_title (rs.getD i default).title))

/-- `DuplicateRemover._find_doi_matches`. -/
def find_doi_matches (rs : List Article) (doi : PyStr) (processed : List Nat) :
    List Nat :=
  if doi = semInfo then []
  else
    let nd := normalize_doi_cmp doi
    (List.range rs.length).filter (fun i =>
      i ∉ processed && (rs.getD i default).doi ≠ semInfo &&
      nd = normalize_doi_cmp (rs.getD i default).doi)

/-- `DuplicateRemover._calculate_article_quality_score`. -/
def quality_score (a : Article) : Nat :=
  (if a.title ≠ semInfo then 10 else 0) +
  (if a.authors ≠ semInfo then 8 else 0) +
  (if a.year ≠ semInfo then 5 else 0) +
  (if a.doi ≠ semInfo then 15 else 0) +
  (if a.abstract ≠ semInfo then 20 else 0) +
  (if !a.abstract.isEmpty && a.abstract ≠ semInfo then
     (if a.abstract.length > 500 then 5 else if a.abstract.length > 200 then 3 else 0)
   else 0)

/-- `DuplicateRemover._select_best_article`: fold with `best = indices[0]`,
`best_score = 0`, updating on strictly greater scores (so ties keep the
earlier index of the iteration order). -/
def select_best (rs : List Article) (idxs : List Nat) : Nat :=
  match idxs with
  | [] => 0
  | i0 :: _ =>
    (idxs.foldl
      (fun b i =>
        if quality_score (rs.getD i default) > b.2 then (i, quality_score (rs.getD i default))
        else b)
      (i0, 0)).1

/-- One audit entry of `duplicates_info` (without the `source_file` column,
which the core reads only when the caller attached it). -/
structure DupInfo where
  original_index : Nat
  title : PyStr
  authors : PyStr
  year : PyStr
  doi : PyStr
  reason : PyStr
  kept_article_index : Nat
deriving DecidableEq, Repr

/-- `DuplicateRemover._get_duplicate_reason`. -/
def get_duplicate_reason (rs : List Article) (removedIdx keptIdx : Nat) : PyStr :=
  let rem := rs.getD removedIdx default
  let kept := rs.getD keptIdx default
  let reasons :=
    (if rem.title ≠ semInfo && kept.title ≠ semInfo &&
        titles_are_similar (normalize_title rem.title) (normalize_title kept.title) then
       [("título similar").data]
     else []) ++
    (if rem.doi ≠ semInfo && kept.doi ≠ semInfo &&
        normalize_doi_cmp rem.doi = normalize_doi_cmp kept.doi then
       [("mesmo DOI").data]
     else [])
  let reasons := if reasons.isEmpty then [("critérios de duplicata").data] else reasons
  pyJoin (", ").data reasons ++ (" (pontuação: ").data ++
    (Nat.repr (quality_score rem)).data ++ (" vs ").data ++
    (Nat.repr (quality_score kept)).data ++ (" do artigo mantido)").data

/-- The audit entry recorded for a removed duplicate. -/
def mkDupInfo (rs : List Article) (dupIdx bestIdx : Nat) : DupInfo :=
  let a := rs.getD dupIdx default
  ⟨dupIdx, a.title, a.authors, a.year, a.doi,
   get_duplicate_reason rs dupIdx bestIdx, bestIdx⟩

/-- One iteration of the `remove_duplicates` main loop, at row `idx`.  The
state carries the processed-id set and the audit list.  `list(set(...))` over
small non-negative integers iterates ascending in CPython, which the
`List.range`-filter reproduces. -/
def dup_step (rs : List Article) (st : List Nat × List DupInfo) (idx : Nat) :
    List Nat × List DupInfo :=
  if idx ∈ st.1 then st
  else
    let row := rs.getD idx default
    if row.title = semInfo || row.doi = semInfo then (st.1 ++ [idx], st.2)
    else
      let tms := find_title_matches rs row.title st.1
      let dms := find_doi_matches rs row.doi st.1
      let allMatches := (List.range rs.length).filter
        (fun i => i ∈ tms || i ∈ dms || i = idx)
      if allMatches.length > 1 then
        let best := select_best rs allMatches
        let toRemove := allMatches.filter (fun i => i ≠ best)
        (st.1 ++ allMatches, st.2 ++ toRemove.map (fun i => mkDupInfo rs i best))
      else (st.1 ++ [idx], st.2)

/-- `DuplicateRemover.remove_duplicates`: single pass in row order, then drop
the audited rows. -/
def remove_duplicates (rs : List Article) : List Article × List DupInfo :=
  if rs.isEmpty then ([], [])
  else
    let st := (List.range rs.length).foldl (dup_step rs) ([], [])
    let toRemove := st.2.map (fun d => d.original_index)
    (((rs.enum.filter (fun p => p.1 ∉ toRemove)).map (fun p => p.2)), st.2)

end DuplicateRemover

/-! ### Definitions used by the claim statements -/

/-- The record-field invariant claimed by the spec for a single field: the
sentinel, or non-empty trimmed text. -/
def fieldOkB (s : PyStr) : Bool :=
  if s = semInfo then true else !s.isEmpty && trimmedB s

/-- The weaker invariant that the code actually guarantees for the DOI field:
the sentinel or non-empty text (`_clean_doi` can keep interior whitespace that
becomes trailing after a URL prefix is removed mid-string). -/
def doiOkB (s : PyStr) : Bool :=
  if s = semInfo then true else !s.isEmpty

/-- The amended per-record invariant: all five fields sentinel-or-non-empty, and
all but the DOI also trimmed. -/
def articleOkB (a : Article) : Bool :=
  fieldOkB a.title && fieldOkB a.authors && fieldOkB a.year &&
  doiOkB a.doi && fieldOkB a.abstract

/-- The spec's claimed per-record invariant: every field, including the DOI, is
the sentinel or non-empty trimmed text. -/
def articleClaimOkB (a : Article) : Bool :=
  fieldOkB a.title && fieldOkB a.authors && fieldOkB a.year &&
  fieldOkB a.doi && fieldOkB a.abstract

/-- Substring occurrence test (used to state when `str.replace` is the
identity). -/
def containsSub (pat : PyStr) (s : PyStr) : Bool :=
  pyStartsWith pat s ||
    match s with
    | [] => false
    | _ :: rest => containsSub pat rest

/-- Condition under which a second `normalize_doi` pass is the identity on the
first pass's output: the output is the sentinel, or contains none of the four
strippable prefixes, is trimmed, and does not end in `.`, `,` or `;`. -/
def normalizeDoiStable (r : PyStr) : Bool :=
  if r = semInfo then true
  else
    !containsSub ("doi:").data r && !containsSub ("DOI:").data r &&
    !containsSub ("https://doi.org/").data r &&
    !containsSub ("http://dx.doi.org/").data r &&
    trimmedB r &&
    (match r.reverse.head? with
     | some c => !(c = '.' || c = ',' || c = ';')
     | none => true)

/-- The cleanliness assumption on a library-produced RIS entry under which the
schema path keeps the field invariant: every provided title/author value either
is empty (and hence ignored as falsy) or has a non-empty strip.  (A
whitespace-only title, for example, would be stored as the empty string by
`_extract_ris_fields`.) -/
def risValOk (v : PyStr) : Bool := v.isEmpty || !(pyStrip v).isEmpty

/-- See `risValOk`. -/
def risEntryClean (e : RISParser.RisEntry) : Bool :=
  (match e.title with
   | some v => risValOk v
   | none => true) &&
  (match e.primary_title with
   | some v => risValOk v
   | none => true) &&
  e.authors.all risValOk && e.first_authors.all risValOk

/-- The direct link relation of the duplicate detector: known titles that are
similar after normalization, or known DOIs with equal normalized form.  A
record joins a group exactly when it is linked to the group's seed row. -/
def linkedB (a b : Article) : Bool :=
  (a.title ≠ semInfo && b.title ≠ semInfo &&
    DuplicateRemover.titles_are_similar
      (DuplicateRemover.normalize_title a.title)
      (DuplicateRemover.normalize_title b.title)) ||
  (a.doi ≠ semInfo && b.doi ≠ semInfo &&
    DuplicateRemover.normalize_doi_cmp a.doi = DuplicateRemover.normalize_doi_cmp b.doi)

/-- `(19|20)dd` with word boundaries at index `i` of `s`, stated positionally
(the spec-style reformulation of the year regex). -/
def yearTokenAtIdx (s : PyStr) (i : Nat) : Bool :=
  i + 4 ≤ s.length &&
  ((s.getD i ' ' = '1' && s.getD (i + 1) ' ' = '9') ||
   (s.getD i ' ' = '2' && s.getD (i + 1) ' ' = '0')) &&
  (s.getD (i + 2) ' ').isDigit && (s.getD (i + 3) ' ').isDigit &&
  (i = 0 || !isWordChar (s.getD (i - 1) ' ')) &&
  (i + 4 = s.length || !isWordChar (s.getD (i + 4) ' '))

/-- The left word-boundary test carried by the scanner: satisfied at the start
of the string, and otherwise exactly when the preceding character is not a word
character. -/
def boundB : Option Char → Bool
  | none => true
  | some p => !isWordChar p

/-- `yearTokenAtIdx` generalised to an arbitrary character preceding the string,
the induction invariant of the scanner/specification correspondence. -/
def yearTokAux (prev : Option Char) (s : PyStr) (i : Nat) : Bool :=
  i + 4 ≤ s.length &&
  ((s.getD i ' ' = '1' && s.getD (i + 1) ' ' = '9') ||
   (s.getD i ' ' = '2' && s.getD (i + 1) ' ' = '0')) &&
  (s.getD (i + 2) ' ').isDigit && (s.getD (i + 3) ' ').isDigit &&
  (match i with
   | 0 => boundB prev
   | j + 1 => !isWordChar (s.getD j ' ')) &&
  (i + 4 = s.length || !isWordChar (s.getD (i + 4) ' '))

/-- Spec-style year search: the token at the first index where `yearTokenAtIdx`
holds. -/
def specYearFirst (s : PyStr) : Option PyStr :=
  ((List.range s.length).find? (yearTokenAtIdx s)).map (fun i => (s.drop i).take 4)

/-- The claim's words for year extraction, taken literally: the first 4-digit
substring matching `(19|20)dd` found anywhere (no word-boundary requirement),
else the whole trimmed input if it is exactly 4 digits, else the sentinel.
Used only to exhibit where the code deviates from the claim. -/
def claimYearTokenAtIdx (s : PyStr) (i : Nat) : Bool :=
  i + 4 ≤ s.length &&
  ((s.getD i ' ' = '1' && s.getD (i + 1) ' ' = '9') ||
   (s.getD i ' ' = '2' && s.getD (i + 1) ' ' = '0')) &&
  (s.getD (i + 2) ' ').isDigit && (s.getD (i + 3) ' ').isDigit

/-- See `claimYearTokenAtIdx`. -/
def claimYearSpec (s : PyStr) : PyStr :=
  match ((List.range s.length).find? (claimYearTokenAtIdx s)).map
      (fun i => (s.drop i).take 4) with
  | some y => y
  | none =>
    if pyIsDigitStr (pyStrip s) && (pyStrip s).length = 4 then pyStrip s else semInfo

/-- A line consisting of `ER` plus optional trailing whitespace. -/
def isErWsLine (l : PyStr) : Bool :=
  pyStartsWith ("ER").data l && (l.drop 2).all pyIsSpace

/-- Whether some line that is not the last of the list is an `ER` line (the last
line is excluded because the regex `\nER\s*\n` needs a terminating newline). -/
def interiorErLine : List PyStr → Bool
  | [] => false
  | [_] => false
  | l :: r :: rest => isErWsLine l || interiorErLine (r :: rest)

/-- Line-structured reformulation of the detector's ER rule: some line other
than the first, and not the file-final line, consists of `ER` plus trailing
whitespace. -/
def erSpecLines (t : PyStr) : Bool :=
  match splitNl t with
  | [] => false
  | _ :: rest => interiorErLine rest

/-- The dialect detector as the frozen claim words it: rule 3 fires whenever any
line consists solely of `ER`.  Used only to exhibit the deviation. -/
def detectFormatClaim (t : PyStr) : TXTParser.TxtFormat :=
  if reSearchB TXTParser.recordHashAt t then .citation_export
  else if reSearchB TXTParser.recordNumAt t && mlSearchB TXTParser.titleLineAt true t then
    .records_format
  else if (splitNl t).any (fun l => l = ("ER").data) then .er_terminated
  else if TXTParser.fullFieldCount t ≥ 2 then .full_fields
  else .pubmed

/-- The amended detector: identical to the claim's five-rule cascade except that
the ER rule requires the `ER` line to be preceded and followed by a newline
(stated over the line structure of the input). -/
def detectFormatAmended (t : PyStr) : TXTParser.TxtFormat :=
  if reSearchB TXTParser.recordHashAt t then .citation_export
  else if reSearchB TXTParser.recordNumAt t && mlSearchB TXTParser.titleLineAt true t then
    .records_format
  else if erSpecLines t then .er_terminated
  else if TXTParser.fullFieldCount t ≥ 2 then .full_fields
  else .pubmed

/-! ### Basic lemmas about the string primitives -/

theorem head?_append_left {α : Type} (l t : List α) (h : l ≠ []) :
    (l ++ t).head? = l.head? := by
  cases l with
  | nil => exact absurd rfl h
  | cons a as => rfl

theorem dropWhile_head_false (p : Char → Bool) :
    ∀ (l : PyStr) (c : Char), (l.dropWhile p).head? = some c → p c = false := by
  intro l
  induction l with
  | nil => intro c h; simp [List.dropWhile] at h
  | cons a as ih =>
    intro c h
    by_cases hpa : p a = true
    · rw [List.dropWhile_cons, if_pos hpa] at h
      exact ih c h
    · rw [List.dropWhile_cons, if_neg hpa] at h
      simp only [List.head?_cons, Option.some.injEq] at h
      rw [← h]
      exact Bool.eq_false_iff.mpr hpa

theorem dropWhile_eq_self_of_head (p : Char → Bool) (l : PyStr)
    (h : ∀ c, l.head? = some c → p c = false) : l.dropWhile p = l := by
  cases l with
  | nil => rfl
  | cons a as =>
    rw [List.dropWhile_cons, if_neg]
    rw [h a rfl]
    simp

theorem pyDropRight_append (p : Char → Bool) (l : PyStr) :
    l = pyDropRight p l ++ (l.reverse.takeWhile p).reverse := by
  unfold pyDropRight
  conv_lhs =>
    rw [← List.reverse_reverse l,
        ← List.takeWhile_append_dropWhile (p := p) (l := l.reverse)]
  rw [List.reverse_append]

theorem trimmedB_intro (s : PyStr)
    (h1 : ∀ c, s.head? = some c → pyIsSpace c = false)
    (h2 : ∀ c, s.reverse.head? = some c → pyIsSpace c = false) :
    trimmedB s = true := by
  unfold trimmedB
  rw [Bool.and_eq_true]
  constructor
  · cases hh : s.head? with
    | none => rfl
    | some c => simp [h1 c hh]
  · cases hh : s.reverse.head? with
    | none => rfl
    | some c => simp [h2 c hh]

theorem trimmedB_head (s : PyStr) (h : trimmedB s = true) (c : Char)
    (hc : s.head? = some c) : pyIsSpace c = false := by
  unfold trimmedB at h
  rw [Bool.and_eq_true] at h
  rw [hc] at h
  simpa using h.1

theorem trimmedB_last (s : PyStr) (h : trimmedB s = true) (c : Char)
    (hc : s.reverse.head? = some c) : pyIsSpace c = false := by
  unfold trimmedB at h
  rw [Bool.and_eq_true] at h
  rw [hc] at h
  simpa using h.2

theorem trimmedB_pyStrip (s : PyStr) : trimmedB (pyStrip s) = true := by
  apply trimmedB_intro
  · intro c hc
    have hne : pyStrip s ≠ [] := by
      intro h0
      rw [h0] at hc
      exact Option.noConfusion hc
    have hpre := pyDropRight_append pyIsSpace (pyDropLeft pyIsSpace s)
    have hu : (pyDropLeft pyIsSpace s).head? = some c := by
      rw [hpre]
      rw [head?_append_left (pyDropRight pyIsSpace (pyDropLeft pyIsSpace s)) _ hne]
      exact hc
    exact dropWhile_head_false pyIsSpace s c hu
  · intro c hc
    have hrev : (pyStrip s).reverse =
        (pyDropLeft pyIsSpace s).reverse.dropWhile pyIsSpace := by
      unfold pyStrip pyDropRight
      rw [List.reverse_reverse]
    rw [hrev] at hc
    exact dropWhile_head_false pyIsSpace _ c hc

theorem pyStrip_eq_self (s : PyStr) (h : trimmedB s = true) : pyStrip s = s := by
  unfold pyStrip pyDropLeft pyDropRight
  rw [dropWhile_eq_self_of_head pyIsSpace s (trimmedB_head s h)]
  rw [dropWhile_eq_self_of_head pyIsSpace s.reverse (trimmedB_last s h)]
  exact List.reverse_reverse s

theorem pyDropRight_eq_self (p : Char → Bool) (s : PyStr)
    (h : ∀ c, s.reverse.head? = some c → p c = false) : pyDropRight p s = s := by
  unfold pyDropRight
  rw [dropWhile_eq_self_of_head p s.reverse h]
  exact List.reverse_reverse s

theorem not_space_of_digit (c : Char) (h : c.isDigit = true) : pyIsSpace c = false := by
  by_contra hcon
  rw [Bool.not_eq_false] at hcon
  unfold pyIsSpace at hcon
  simp only [Bool.or_eq_true, decide_eq_true_eq] at hcon
  rcases hcon with ((((rfl | rfl) | rfl) | rfl) | rfl) | rfl <;> exact absurd h (by decide)

theorem trimmedB_of_digits (s : PyStr) (h : s.all Char.isDigit = true) :
    trimmedB s = true := by
  apply trimmedB_intro
  · intro c hc
    have hmem : c ∈ s := List.mem_of_mem_head? (by rw [hc]; simp)
    exact not_space_of_digit c (List.all_eq_true.mp h c hmem)
  · intro c hc
    have hmem : c ∈ s := by
      have : c ∈ s.reverse := List.mem_of_mem_head? (by rw [hc]; simp)
      simpa using this
    exact not_space_of_digit c (List.all_eq_true.mp h c hmem)

theorem trimmedB_append_mid (a m b : PyStr) (ha : trimmedB a = true) (hane : a ≠ [])
    (hb : trimmedB b = true) (hbne : b ≠ []) : trimmedB (a ++ m ++ b) = true := by
  apply trimmedB_intro
  · intro c hc
    have h1 : a ++ m ≠ [] := by
      intro h0
      exact hane (List.append_eq_nil.mp h0).1
    rw [head?_append_left (a ++ m) b h1, head?_append_left a m hane] at hc
    exact trimmedB_head a ha c hc
  · intro c hc
    rw [List.reverse_append, List.reverse_append] at hc
    have hbne2 : b.reverse ≠ [] := by simpa using hbne
    rw [head?_append_left b.reverse _ hbne2] at hc
    exact trimmedB_last b hb c hc

theorem pyJoin_ne_nil (sep : PyStr) :
    ∀ (parts : List PyStr), parts ≠ [] → (∀ p ∈ parts, p ≠ []) →
      pyJoin sep parts ≠ [] := by
  intro parts
  induction parts with
  | nil => intro h; exact absurd rfl h
  | cons p ps ih =>
    intro _ hall
    cases ps with
    | nil =>
      simpa [pyJoin] using hall p (by simp)
    | cons q rest =>
      show p ++ sep ++ pyJoin sep (q :: rest) ≠ []
      intro h0
      have hp : p = [] := (List.append_eq_nil.mp (List.append_eq_nil.mp h0).1).1
      exact hall p (by simp) hp

theorem trimmedB_pyJoin (sep : PyStr) :
    ∀ (parts : List PyStr), parts ≠ [] →
      (∀ p ∈ parts, p ≠ [] ∧ trimmedB p = true) →
      trimmedB (pyJoin sep parts) = true := by
  intro parts
  induction parts with
  | nil => intro h; exact absurd rfl h
  | cons p ps ih =>
    intro _ hall
    cases ps with
    | nil => simpa [pyJoin] using (hall p (by simp)).2
    | cons q rest =>
      show trimmedB (p ++ sep ++ pyJoin sep (q :: rest)) = true
      have hq := ih (by simp) (fun x hx => hall x (by simp [hx]))
      have hqne := pyJoin_ne_nil sep (q :: rest) (by simp)
        (fun x hx => (hall x (by simp [hx])).1)
      exact trimmedB_append_mid p sep _ (hall p (by simp)).2 (hall p (by simp)).1 hq hqne

/-! ### Lemmas about the word splitter and the join -/

theorem pySplitWsGo_words :
    ∀ (s cur : PyStr), (∀ c ∈ cur, pyIsSpace c = false) →
      ∀ w ∈ pySplitWsGo cur s, w ≠ [] ∧ ∀ c ∈ w, pyIsSpace c = false := by
  intro s
  induction s with
  | nil =>
    intro cur hcur w hw
    unfold pySplitWsGo at hw
    by_cases hc : cur.isEmpty
    · rw [if_pos hc] at hw
      simp at hw
    · rw [if_neg hc] at hw
      simp only [List.mem_singleton] at hw
      subst hw
      refine ⟨by simpa using hc, ?_⟩
      intro c hcmem
      exact hcur c (by simpa using hcmem)
  | cons a rest ih =>
    intro cur hcur w hw
    unfold pySplitWsGo at hw
    by_cases hpa : pyIsSpace a = true
    · rw [if_pos hpa] at hw
      by_cases hc : cur.isEmpty
      · rw [if_pos hc] at hw
        exact ih [] (by simp) w hw
      · rw [if_neg hc] at hw
        rcases List.mem_cons.mp hw with hweq | hwtail
        · subst hweq
          refine ⟨by simpa using hc, ?_⟩
          intro c hcmem
          exact hcur c (by simpa using hcmem)
        · exact ih [] (by simp) w hwtail
    · rw [if_neg hpa] at hw
      refine ih (a :: cur) ?_ w hw
      intro c hcmem
      rcases List.mem_cons.mp hcmem with rfl | hmem
      · exact Bool.eq_false_iff.mpr hpa
      · exact hcur c hmem

theorem pySplitWs_words (s : PyStr) :
    ∀ w ∈ pySplitWs s, w ≠ [] ∧ ∀ c ∈ w, pyIsSpace c = false :=
  pySplitWsGo_words s [] (by simp)

theorem trimmedB_of_no_space (w : PyStr) (h : ∀ c ∈ w, pyIsSpace c = false) :
    trimmedB w = true := by
  apply trimmedB_intro
  · intro c hc
    exact h c (List.mem_of_mem_head? (by rw [hc]; simp))
  · intro c hc
    have : c ∈ w.reverse := List.mem_of_mem_head? (by rw [hc]; simp)
    exact h c (by simpa using this)

/-- `" ".join(s.split())` of a non-empty word list is non-empty and trimmed. -/
theorem joined_words_ok (s : PyStr) (h : !(pyJoin [' '] (pySplitWs s)).isEmpty) :
    pyJoin [' '] (pySplitWs s) ≠ [] ∧ trimmedB (pyJoin [' '] (pySplitWs s)) = true := by
  have hne : pySplitWs s ≠ [] := by
    intro h0
    rw [h0] at h
    simp [pyJoin] at h
  refine ⟨?_, ?_⟩
  · exact pyJoin_ne_nil [' '] (pySplitWs s) hne (fun p hp => (pySplitWs_words s p hp).1)
  · exact trimmedB_pyJoin [' '] (pySplitWs s) hne (fun p hp =>
      ⟨(pySplitWs_words s p hp).1,
       trimmedB_of_no_space p (pySplitWs_words s p hp).2⟩)

/-! ### Shape lemmas for the regex models and the cleaners -/

theorem yearScan_shape :
    ∀ (s : PyStr) (prev : Option Char) (y : PyStr),
      yearScan prev s = some y → y ≠ [] ∧ trimmedB y = true ∧ y.length = 4 := by
  intro s
  induction s with
  | nil => intro prev y h; simp [yearScan] at h
  | cons a rest ih =>
    intro prev y h
    rcases rest with _ | ⟨b, rest⟩
    · simp [yearScan] at h
    rcases rest with _ | ⟨c, rest⟩
    · simp [yearScan] at h
    rcases rest with _ | ⟨d, rest2⟩
    · simp [yearScan] at h
    rw [yearScan.eq_def] at h
    dsimp only at h
    split at h
    next hcond =>
      have hy : y = [a, b, c, d] := by
        injection h with h2
        exact h2.symm
      subst hy
      simp only [Bool.and_eq_true] at hcond
      obtain ⟨⟨⟨⟨_, hab⟩, hc⟩, hd⟩, _⟩ := hcond
      refine ⟨by simp, ?_, by simp⟩
      apply trimmedB_intro
      · intro x hx
        simp only [List.head?_cons, Option.some.injEq] at hx
        subst hx
        simp only [Bool.or_eq_true, Bool.and_eq_true, decide_eq_true_eq] at hab
        rcases hab with ⟨rfl, _⟩ | ⟨rfl, _⟩ <;> rfl
      · intro x hx
        have hrev : ([a, b, c, d] : PyStr).reverse = [d, c, b, a] := by rfl
        rw [hrev] at hx
        simp only [List.head?_cons, Option.some.injEq] at hx
        subst hx
        exact not_space_of_digit d hd
    next =>
      exact ih (some a) y h

theorem match10_shape (r : PyStr) (h : match10 r = true) :
    ∃ ds suf, r = '1' :: '0' :: '.' :: (ds ++ '/' :: suf) ∧ ds ≠ [] ∧
      (∀ c ∈ ds, c.isDigit = true) ∧ suf ≠ [] := by
  unfold match10 at h
  split at h
  next rest =>
    simp only [Bool.and_eq_true] at h
    obtain ⟨hds, hdrop⟩ := h
    rcases hdw : rest.dropWhile Char.isDigit with _ | ⟨c0, rest2⟩
    · rw [hdw] at hdrop; simp at hdrop
    rcases rest2 with _ | ⟨e, tail⟩
    · rw [hdw] at hdrop
      by_cases hc0 : c0 = '/' <;> simp [hc0] at hdrop
    · rw [hdw] at hdrop
      by_cases hc0 : c0 = '/'
      · subst hc0
        refine ⟨rest.takeWhile Char.isDigit, e :: tail, ?_, ?_, ?_, by simp⟩
        · have hsplit := List.takeWhile_append_dropWhile (p := Char.isDigit) (l := rest)
          rw [hdw] at hsplit
          conv_lhs => rw [← hsplit]
        · intro h0
          rw [h0] at hds
          exact absurd hds (by simp)
        · intro c hc
          exact List.mem_takeWhile_imp hc
      · simp [hc0] at hdrop
  all_goals exact absurd h (by simp)

theorem match10_ne_nil (r : PyStr) (h : match10 r = true) : r ≠ [] := by
  obtain ⟨ds, suf, hr, _, _, _⟩ := match10_shape r h
  rw [hr]
  simp

theorem clean_doi_some (s r : PyStr) (h : RISParser.clean_doi s = some r) :
    match10 r = true ∧ r ≠ [] := by
  unfold RISParser.clean_doi at h
  by_cases hs : s.isEmpty
  · rw [if_pos hs] at h; exact Option.noConfusion h
  · rw [if_neg hs] at h
    by_cases hm : match10 (pyRStripPunct
        (pyReplace ("http://dx.doi.org/").data []
          (pyReplace ("https://doi.org/").data []
            (pyStrip (pyReplace ("DOI:").data [] (pyReplace ("doi:").data [] s)))))) = true
    · rw [if_pos hm] at h
      have hr : r = _ := (Option.some.injEq _ _ ▸ h).symm
      rw [hr]
      exact ⟨hm, match10_ne_nil _ hm⟩
    · rw [if_neg hm] at h
      exact Option.noConfusion h

theorem clean_abstract_some (s r : PyStr) (h : RISParser.clean_abstract s = some r) :
    r ≠ [] ∧ trimmedB r = true := by
  unfold RISParser.clean_abstract at h
  by_cases hs : s.isEmpty
  · rw [if_pos hs] at h; exact Option.noConfusion h
  · rw [if_neg hs] at h
    by_cases hl : (pyStrip ((pyJoin [' '] (pySplitWs (stripHtmlTags s))).filter
        printableOrSpace)).length > 10
    · rw [if_pos hl] at h
      have hr : r = _ := (Option.some.injEq _ _ ▸ h).symm
      rw [hr]
      constructor
      · intro h0
        rw [h0] at hl
        simp at hl
      · exact trimmedB_pyStrip _
    · rw [if_neg hl] at h
      exact Option.noConfusion h

/-! ### The field invariant and its preservation by every field processor -/

theorem fieldOkB_sem : fieldOkB semInfo = true := by
  unfold fieldOkB
  rw [if_pos rfl]

theorem doiOkB_sem : doiOkB semInfo = true := by
  unfold doiOkB
  rw [if_pos rfl]

theorem fieldOkB_of (s : PyStr) (h1 : s ≠ []) (h2 : trimmedB s = true) :
    fieldOkB s = true := by
  unfold fieldOkB
  by_cases hs : s = semInfo
  · rw [if_pos hs]
  · rw [if_neg hs]
    simp [h1, h2]

theorem doiOkB_of (s : PyStr) (h1 : s ≠ []) : doiOkB s = true := by
  unfold doiOkB
  by_cases hs : s = semInfo
  · rw [if_pos hs]
  · rw [if_neg hs]
    simp [h1]

theorem fieldOkB_known (s : PyStr) (h : fieldOkB s = true) (hne : s ≠ semInfo) :
    s ≠ [] ∧ trimmedB s = true := by
  unfold fieldOkB at h
  rw [if_neg hne] at h
  rw [Bool.and_eq_true] at h
  exact ⟨by simpa using h.1, h.2⟩

theorem fieldOkB_strip (c : PyStr) (h : pyStrip c ≠ []) : fieldOkB (pyStrip c) = true :=
  fieldOkB_of _ h (trimmedB_pyStrip c)

theorem fieldOkB_digit4 (s : PyStr) (h : pyIsDigitStr s = true) : fieldOkB s = true := by
  unfold pyIsDigitStr at h
  rw [Bool.and_eq_true] at h
  exact fieldOkB_of s (by simpa using h.1) (trimmedB_of_digits s h.2)

theorem articleOkB_parts (a : Article) (h : articleOkB a = true) :
    fieldOkB a.title = true ∧ fieldOkB a.authors = true ∧ fieldOkB a.year = true ∧
      doiOkB a.doi = true ∧ fieldOkB a.abstract = true := by
  unfold articleOkB at h
  simp only [Bool.and_eq_true] at h
  exact ⟨h.1.1.1.1, h.1.1.1.2, h.1.1.2, h.1.2, h.2⟩

theorem articleOkB_mk (a : Article) (h1 : fieldOkB a.title = true)
    (h2 : fieldOkB a.authors = true) (h3 : fieldOkB a.year = true)
    (h4 : doiOkB a.doi = true) (h5 : fieldOkB a.abstract = true) :
    articleOkB a = true := by
  unfold articleOkB
  simp only [Bool.and_eq_true]
  exact ⟨⟨⟨⟨h1, h2⟩, h3⟩, h4⟩, h5⟩

theorem articleOkB_title (a : Article) (v : PyStr) (h : articleOkB a = true)
    (hv : fieldOkB v = true) : articleOkB { a with title := v } = true := by
  obtain ⟨_, h2, h3, h4, h5⟩ := articleOkB_parts a h
  exact articleOkB_mk _ hv h2 h3 h4 h5

theorem articleOkB_authors (a : Article) (v : PyStr) (h : articleOkB a = true)
    (hv : fieldOkB v = true) : articleOkB { a with authors := v } = true := by
  obtain ⟨h1, _, h3, h4, h5⟩ := articleOkB_parts a h
  exact articleOkB_mk _ h1 hv h3 h4 h5

theorem articleOkB_year (a : Article) (v : PyStr) (h : articleOkB a = true)
    (hv : fieldOkB v = true) : articleOkB { a with year := v } = true := by
  obtain ⟨h1, h2, _, h4, h5⟩ := articleOkB_parts a h
  exact articleOkB_mk _ h1 h2 hv h4 h5

theorem articleOkB_doi (a : Article) (v : PyStr) (h : articleOkB a = true)
    (hv : doiOkB v = true) : articleOkB { a with doi := v } = true := by
  obtain ⟨h1, h2, h3, _, h5⟩ := articleOkB_parts a h
  exact articleOkB_mk _ h1 h2 h3 hv h5

theorem articleOkB_abstract (a : Article) (v : PyStr) (h : articleOkB a = true)
    (hv : fieldOkB v = true) : articleOkB { a with abstract := v } = true := by
  obtain ⟨h1, h2, h3, h4, _⟩ := articleOkB_parts a h
  exact articleOkB_mk _ h1 h2 h3 h4 hv

theorem articleOkB_allSem : articleOkB allSem = true := by decide

theorem author_append_ok (au c : PyStr) (hau : au ≠ []) (hau2 : trimmedB au = true)
    (hc : c ≠ []) (hc2 : trimmedB c = true) :
    fieldOkB (au ++ (", ").data ++ c) = true := by
  apply fieldOkB_of
  · intro h0
    exact hau (List.append_eq_nil.mp (List.append_eq_nil.mp h0).1).1
  · exact trimmedB_append_mid au _ c hau2 hau hc2 hc

theorem year_branch_ok (a : Article) (v : PyStr) (h : articleOkB a = true)
    (hv1 : v ≠ []) (hv2 : trimmedB v = true) :
    articleOkB
      (match regexSearchYear v with
       | some y => { a with year := y }
       | none =>
         if pyIsDigitStr v && v.length = 4 then { a with year := v } else a) = true := by
  cases hy : regexSearchYear v with
  | some y =>
    obtain ⟨hy1, hy2, _⟩ := yearScan_shape _ none y hy
    exact articleOkB_year a _ h (fieldOkB_of _ hy1 hy2)
  | none =>
    by_cases hdig : (pyIsDigitStr v && v.length = 4) = true
    · rw [if_pos hdig]
      rw [Bool.and_eq_true] at hdig
      exact articleOkB_year a _ h (fieldOkB_digit4 v hdig.1)
    · rw [if_neg hdig]
      exact h

theorem year_branch_nofb_ok (a : Article) (v : PyStr) (h : articleOkB a = true) :
    articleOkB
      (match regexSearchYear v with
       | some y => { a with year := y }
       | none => a) = true := by
  cases hy : regexSearchYear v with
  | some y =>
    obtain ⟨hy1, hy2, _⟩ := yearScan_shape _ none y hy
    exact articleOkB_year a _ h (fieldOkB_of _ hy1 hy2)
  | none => exact h

theorem doi_branch_ok (a : Article) (v : PyStr) (h : articleOkB a = true) :
    articleOkB
      (match TXTParser.clean_doi v with
       | some dc => { a with doi := dc }
       | none => a) = true := by
  cases hdc : TXTParser.clean_doi v with
  | some dc => exact articleOkB_doi a _ h (doiOkB_of _ (clean_doi_some _ dc hdc).2)
  | none => exact h

theorem abstract_branch_ok (a : Article) (v : PyStr) (h : articleOkB a = true) :
    articleOkB
      (match TXTParser.clean_abstract v with
       | some ac => { a with abstract := ac }
       | none => a) = true := by
  cases hac : TXTParser.clean_abstract v with
  | some ac =>
    obtain ⟨ha1, ha2⟩ := clean_abstract_some _ ac hac
    exact articleOkB_abstract a _ h (fieldOkB_of _ ha1 ha2)
  | none => exact h

theorem authors_append_branch_ok (a : Article) (v : PyStr) (h : articleOkB a = true)
    (hv1 : v ≠ []) (hv2 : trimmedB v = true) :
    articleOkB
      (if a.authors = semInfo then { a with authors := v }
       else { a with authors := a.authors ++ (", ").data ++ v }) = true := by
  by_cases hne : a.authors = semInfo
  · rw [if_pos hne]
    exact articleOkB_authors a _ h (fieldOkB_of _ hv1 hv2)
  · rw [if_neg hne]
    obtain ⟨hau1, hau2⟩ := fieldOkB_known a.authors (articleOkB_parts a h).2.1 hne
    exact articleOkB_authors a _ h (author_append_ok _ _ hau1 hau2 hv1 hv2)

theorem process_pubmed_ok (a : Article) (f c : PyStr) (h : articleOkB a = true) :
    articleOkB (TXTParser.process_pubmed_field a f c) = true := by
  unfold TXTParser.process_pubmed_field
  by_cases h0 : (pyStrip c).isEmpty
  · rw [if_pos h0]; exact h
  · rw [if_neg h0]
    have hc1 : pyStrip c ≠ [] := by simpa using h0
    have hc2 : trimmedB (pyStrip c) = true := trimmedB_pyStrip c
    by_cases hf1 : f = ("TI").data
    · rw [if_pos hf1]
      exact articleOkB_title a _ h (fieldOkB_of _ hc1 hc2)
    rw [if_neg hf1]
    by_cases hf2 : (f = ("AU").data || f = ("FAU").data) = true
    · rw [if_pos hf2]
      exact authors_append_branch_ok a _ h hc1 hc2
    rw [if_neg hf2]
    by_cases hf3 : f = ("DP").data
    · rw [if_pos hf3]
      exact year_branch_nofb_ok a _ h
    rw [if_neg hf3]
    by_cases hf4 : f = ("AB").data
    · rw [if_pos hf4]
      exact abstract_branch_ok a _ h
    rw [if_neg hf4]
    by_cases hf5 : (f = ("AID").data || f = ("LID").data) = true
    · rw [if_pos hf5]
      cases hg : TXTParser.doiBracketCapture (pyStrip c) with
      | some g => exact doi_branch_ok a _ h
      | none => exact h
    · rw [if_neg hf5]
      exact h


theorem process_citation_ok (a : Article) (f c : PyStr) (h : articleOkB a = true) :
    articleOkB (TXTParser.process_citation_export_field a f c) = true := by
  unfold TXTParser.process_citation_export_field
  by_cases h0 : (pyStrip c).isEmpty
  · rw [if_pos h0]; exact h
  · rw [if_neg h0]
    have hc1 : pyStrip c ≠ [] := by simpa using h0
    have hc2 : trimmedB (pyStrip c) = true := trimmedB_pyStrip c
    by_cases hf1 : f = ("TI").data
    · rw [if_pos hf1]
      exact articleOkB_title a _ h (fieldOkB_of _ hc1 hc2)
    rw [if_neg hf1]
    by_cases hf2 : f = ("AU").data
    · rw [if_pos hf2]
      exact authors_append_branch_ok a _ h hc1 hc2
    rw [if_neg hf2]
    by_cases hf3 : f = ("YR").data
    · rw [if_pos hf3]
      exact year_branch_ok a _ h hc1 hc2
    rw [if_neg hf3]
    by_cases hf4 : f = ("DOI").data
    · rw [if_pos hf4]
      exact doi_branch_ok a _ h
    rw [if_neg hf4]
    by_cases hf5 : f = ("AB").data
    · rw [if_pos hf5]
      exact abstract_branch_ok a _ h
    · rw [if_neg hf5]
      exact h

theorem process_records_ok (a : Article) (f c : PyStr) (h : articleOkB a = true) :
    articleOkB (TXTParser.process_records_field a f c) = true := by
  unfold TXTParser.process_records_field
  by_cases h0 : (pyStrip c).isEmpty
  · rw [if_pos h0]; exact h
  · rw [if_neg h0]
    have hc1 : pyStrip c ≠ [] := by simpa using h0
    have hc2 : trimmedB (pyStrip c) = true := trimmedB_pyStrip c
    by_cases hf1 : f = ("TITLE").data
    · rw [if_pos hf1]
      exact articleOkB_title a _ h (fieldOkB_of _ hc1 hc2)
    rw [if_neg hf1]
    by_cases hf2 : f = ("AUTHOR NAMES").data
    · rw [if_pos hf2]
      exact articleOkB_authors a _ h (fieldOkB_of _ hc1 hc2)
    rw [if_neg hf2]
    by_cases hf3 : f = ("PUBLICATION YEAR").data
    · rw [if_pos hf3]
      exact year_branch_ok a _ h hc1 hc2
    rw [if_neg hf3]
    by_cases hf4 : f = ("DOI").data
    · rw [if_pos hf4]
      exact doi_branch_ok a _ h
    rw [if_neg hf4]
    by_cases hf5 : f = ("ABSTRACT").data
    · rw [if_pos hf5]
      exact abstract_branch_ok a _ h
    · rw [if_neg hf5]
      exact h

theorem process_full_ok (a : Article) (f c : PyStr) (h : articleOkB a = true) :
    articleOkB (TXTParser.process_full_field a f c) = true := by
  unfold TXTParser.process_full_field
  by_cases h0 : (pyStrip c).isEmpty
  · rw [if_pos h0]; exact h
  · rw [if_neg h0]
    have hc1 : pyStrip c ≠ [] := by simpa using h0
    have hc2 : trimmedB (pyStrip c) = true := trimmedB_pyStrip c
    by_cases hf1 : f = ("title").data
    · rw [if_pos hf1]
      exact articleOkB_title a _ h (fieldOkB_of _ hc1 hc2)
    rw [if_neg hf1]
    by_cases hf2 : (f = ("authors").data || f = ("author").data) = true
    · rw [if_pos hf2]
      exact articleOkB_authors a _ h (fieldOkB_of _ hc1 hc2)
    rw [if_neg hf2]
    by_cases hf3 : f = ("year").data
    · rw [if_pos hf3]
      exact year_branch_ok a _ h hc1 hc2
    rw [if_neg hf3]
    by_cases hf4 : f = ("doi").data
    · rw [if_pos hf4]
      exact doi_branch_ok a _ h
    rw [if_neg hf4]
    by_cases hf5 : f = ("abstract").data
    · rw [if_pos hf5]
      exact abstract_branch_ok a _ h
    · rw [if_neg hf5]
      exact h

theorem process_er_ok (a : Article) (f c : PyStr) (h : articleOkB a = true) :
    articleOkB (TXTParser.process_er_field a f c) = true := by
  unfold TXTParser.process_er_field
  by_cases h0 : (pyStrip c).isEmpty
  · rw [if_pos h0]; exact h
  · rw [if_neg h0]
    have hc1 : pyStrip c ≠ [] := by simpa using h0
    have hc2 : trimmedB (pyStrip c) = true := trimmedB_pyStrip c
    by_cases hf1 : f = ("TI").data
    · rw [if_pos hf1]
      exact articleOkB_title a _ h (fieldOkB_of _ hc1 hc2)
    rw [if_neg hf1]
    by_cases hf2 : (f = ("AU").data || f = ("A1").data || f = ("A2").data) = true
    · rw [if_pos hf2]
      exact authors_append_branch_ok a _ h hc1 hc2
    rw [if_neg hf2]
    by_cases hf3 : (f = ("PY").data || f = ("Y1").data) = true
    · rw [if_pos hf3]
      exact year_branch_nofb_ok a _ h
    rw [if_neg hf3]
    by_cases hf4 : (f = ("DI").data || f = ("DO").data) = true
    · rw [if_pos hf4]
      exact doi_branch_ok a _ h
    rw [if_neg hf4]
    by_cases hf5 : f = ("AB").data
    · rw [if_pos hf5]
      exact abstract_branch_ok a _ h
    · rw [if_neg hf5]
      exact h

theorem flushWith_ok (proc : Article → PyStr → PyStr → Article)
    (hproc : ∀ a f c, articleOkB a = true → articleOkB (proc a f c) = true)
    (st : TXTParser.ScanState) (h : articleOkB st.art = true) :
    articleOkB (TXTParser.flushWith proc st) = true := by
  obtain ⟨art, cur, acc⟩ := st
  unfold TXTParser.flushWith
  cases cur with
  | none => cases acc <;> exact h
  | some f => cases acc with
    | nil => exact h
    | cons c cs => exact hproc _ _ _ h

theorem foldl_scan_ok (step : TXTParser.ScanState → PyStr → TXTParser.ScanState)
    (hstep : ∀ st l, articleOkB st.art = true → articleOkB (step st l).art = true) :
    ∀ (ls : List PyStr) (st : TXTParser.ScanState),
      articleOkB st.art = true → articleOkB ((ls.foldl step st).art) = true := by
  intro ls
  induction ls with
  | nil => intro st h; exact h
  | cons l ls ih => intro st h; exact ih _ (hstep st l h)

theorem citation_step_ok (st : TXTParser.ScanState) (line : PyStr)
    (h : articleOkB st.art = true) :
    articleOkB (TXTParser.citation_step st line).art = true := by
  unfold TXTParser.citation_step
  by_cases h0 : ((pyStrip line).isEmpty || pyStartsWith ("Record #").data (pyStrip line)) = true
  · rw [if_pos h0]; exact h
  · rw [if_neg h0]
    cases htag : TXTParser.citLineTag (pyStrip line) with
    | some tg =>
      obtain ⟨tag, g2⟩ := tg
      exact flushWith_ok _ process_citation_ok st h
    | none =>
      cases hcur : st.cur with
      | some f => exact h
      | none => exact h

theorem records_step_ok (st : TXTParser.ScanState) (line : PyStr)
    (h : articleOkB st.art = true) :
    articleOkB (TXTParser.records_step st line).art = true := by
  unfold TXTParser.records_step
  by_cases h0 : ((pyStrip line).isEmpty || pyStartsWith ("RECORD ").data (pyStrip line)) = true
  · rw [if_pos h0]; exact h
  · rw [if_neg h0]
    by_cases h1 : (pyStrip line = ("TITLE").data || pyStrip line = ("AUTHOR NAMES").data ||
        pyStrip line = ("PUBLICATION YEAR").data || pyStrip line = ("ABSTRACT").data ||
        pyStrip line = ("DOI").data) = true
    · rw [if_pos h1]
      exact flushWith_ok _ process_records_ok st h
    · rw [if_neg h1]
      by_cases h2 : (st.cur.isSome &&
          (pyStartsWith ("  ").data line || pyStartsWith ("\t").data line)) = true
      · rw [if_pos h2]; exact h
      · rw [if_neg h2]; exact h

theorem full_fields_step_ok (st : TXTParser.ScanState) (line : PyStr)
    (h : articleOkB st.art = true) :
    articleOkB (TXTParser.full_fields_step st line).art = true := by
  unfold TXTParser.full_fields_step
  cases hlbl : TXTParser.fullFieldLabel line with
  | some tg =>
    obtain ⟨canon, g2⟩ := tg
    exact flushWith_ok _ process_full_ok st h
  | none =>
    by_cases h1 : (!(pyStrip line).isEmpty && st.cur.isSome) = true
    · rw [if_pos h1]
      by_cases h2 : (pyStartsWith ("  ").data line || pyStartsWith ("\t").data line) = true
      · rw [if_pos h2]; exact h
      · rw [if_neg h2]; exact h
    · rw [if_neg h1]; exact h

theorem er_step_ok (st : TXTParser.ScanState) (line : PyStr)
    (h : articleOkB st.art = true) :
    articleOkB (TXTParser.er_step st line).art = true := by
  unfold TXTParser.er_step
  by_cases h0 : ((pyStrip line).isEmpty || pyStrip line = ("ER").data) = true
  · rw [if_pos h0]; exact h
  · rw [if_neg h0]
    cases htag : TXTParser.erLineTag (pyStrip line) with
    | some tg =>
      obtain ⟨tag, g2⟩ := tg
      exact flushWith_ok _ process_er_ok st h
    | none =>
      by_cases h2 : (st.cur.isSome &&
          (pyStartsWith ("  ").data (pyStrip line) || pyStartsWith ("\t").data (pyStrip line))) = true
      · rw [if_pos h2]; exact h
      · rw [if_neg h2]; exact h

theorem pubmed_step_ok (st : TXTParser.ScanState) (line : PyStr)
    (h : articleOkB st.art = true) :
    articleOkB (TXTParser.pubmed_step st line).art = true := by
  unfold TXTParser.pubmed_step
  by_cases h0 : (pyStrip line).isEmpty
  · rw [if_pos h0]; exact h
  · rw [if_neg h0]
    cases htag : TXTParser.pubmedLineTag (pyStrip line) with
    | some tg =>
      obtain ⟨tag, g2⟩ := tg
      exact flushWith_ok _ process_pubmed_ok st h
    | none =>
      cases hcur : st.cur with
      | some f => exact h
      | none => exact h

theorem extract_txt_fields_ok (record : PyStr) (fmt : TXTParser.TxtFormat) :
    articleOkB (TXTParser.extract_txt_fields record fmt) = true := by
  cases fmt with
  | citation_export =>
    exact flushWith_ok _ process_citation_ok _
      (foldl_scan_ok _ citation_step_ok _ _ articleOkB_allSem)
  | records_format =>
    exact flushWith_ok _ process_records_ok _
      (foldl_scan_ok _ records_step_ok _ _ articleOkB_allSem)
  | full_fields =>
    exact flushWith_ok _ process_full_ok _
      (foldl_scan_ok _ full_fields_step_ok _ _ articleOkB_allSem)
  | er_terminated =>
    exact flushWith_ok _ process_er_ok _
      (foldl_scan_ok _ er_step_ok _ _ articleOkB_allSem)
  | pubmed =>
    exact flushWith_ok _ process_pubmed_ok _
      (foldl_scan_ok _ pubmed_step_ok _ _ articleOkB_allSem)

theorem txt_parse_ok (t : PyStr) (a : Article) (ha : a ∈ TXTParser.parse t) :
    articleOkB a = true := by
  unfold TXTParser.parse at ha
  obtain ⟨hmem, _⟩ := List.mem_filter.mp ha
  obtain ⟨r, _, rfl⟩ := List.mem_map.mp hmem
  exact extract_txt_fields_ok r _

/-! ### Invariant for the custom RIS fallback and the schema path -/

theorem mlFirst_some (f : PyStr → Option PyStr) :
    ∀ (b : Bool) (s : PyStr) (y : PyStr), mlFirst f b s = some y → ∃ u, f u = some y := by
  intro b s
  induction s generalizing b with
  | nil => intro y h; simp [mlFirst] at h
  | cons c rest ih =>
    intro y h
    rw [mlFirst] at h
    cases hx : (if b = true then f (c :: rest) else none) with
    | some r =>
      rw [hx] at h
      injection h with h2
      subst h2
      cases hb : b with
      | true =>
        rw [hb] at hx
        rw [if_pos rfl] at hx
        exact ⟨c :: rest, hx⟩
      | false =>
        rw [hb] at hx
        simp at hx
    | none =>
      rw [hx] at h
      exact ih (c = '\n') y h

theorem ris_title_stage_ok (record : PyStr) (a : Article) (h : articleOkB a = true) :
    articleOkB (RISParser.risTitleStage record a) = true := by
  unfold RISParser.risTitleStage
  cases mlFirst (fun s => (tagDash ("TI").data s).bind risContentDotall) true record with
  | none => exact h
  | some g =>
    dsimp only
    by_cases ht : (!(pyJoin [' '] (pySplitWs
        (List.map (fun c => if c = '\n' then ' ' else c) (pyStrip g)))).isEmpty) = true
    · rw [if_pos ht]
      obtain ⟨h1, h2⟩ := joined_words_ok _ ht
      exact articleOkB_title a _ h (fieldOkB_of _ h1 h2)
    · rw [if_neg ht]
      exact h

theorem ris_authors_stage_ok (record : PyStr) (a : Article) (h : articleOkB a = true) :
    articleOkB (RISParser.risAuthorsStage record a) = true := by
  unfold RISParser.risAuthorsStage
  by_cases ha : (!(((mlFindall (("AU").data) (record.length + 1) true record).map pyStrip).filter
      (fun x => !x.isEmpty)).isEmpty) = true
  · rw [if_pos ha]
    have hne : ((mlFindall (("AU").data) (record.length + 1) true record).map pyStrip).filter
        (fun x => !x.isEmpty) ≠ [] := by
      intro h0
      rw [h0] at ha
      simp at ha
    have hparts : ∀ p ∈ ((mlFindall (("AU").data) (record.length + 1) true record).map
        pyStrip).filter (fun x => !x.isEmpty), p ≠ [] ∧ trimmedB p = true := by
      intro p hp
      obtain ⟨hpm, hpne⟩ := List.mem_filter.mp hp
      obtain ⟨x, _, rfl⟩ := List.mem_map.mp hpm
      exact ⟨by simpa using hpne, trimmedB_pyStrip x⟩
    refine articleOkB_authors a _ h (fieldOkB_of _ ?_ ?_)
    · exact pyJoin_ne_nil _ _ hne (fun p hp => (hparts p hp).1)
    · exact trimmedB_pyJoin _ _ hne hparts
  · rw [if_neg ha]
    exact h

theorem fourDigits_ok (v y : PyStr) (h : RISParser.fourDigits v = some y) :
    pyIsDigitStr y = true := by
  unfold RISParser.fourDigits at h
  dsimp only at h
  split at h
  next hcond =>
    injection h with h2
    rw [Bool.and_eq_true] at hcond
    subst h2
    unfold pyIsDigitStr
    rw [Bool.and_eq_true]
    refine ⟨?_, hcond.2⟩
    have hlen : ((v.dropWhile pyIsSpace).take 4).length = 4 := by simpa using hcond.1
    simp only [Bool.not_eq_true']
    cases hx : (v.dropWhile pyIsSpace).take 4 with
    | nil => rw [hx] at hlen; simp at hlen
    | cons x xs => rfl
  next => exact Option.noConfusion h

theorem ris_year_stage_ok (record : PyStr) (a : Article) (h : articleOkB a = true) :
    articleOkB (RISParser.risYearStage record a) = true := by
  unfold RISParser.risYearStage
  cases h1 : mlFirst (fun s => (tagDash ("PY").data s).bind RISParser.fourDigits) true record with
  | some y =>
    obtain ⟨u, hu⟩ := mlFirst_some _ true record y h1
    obtain ⟨v, _, hv⟩ := Option.bind_eq_some.mp hu
    exact articleOkB_year a _ h (fieldOkB_digit4 y (fourDigits_ok v y hv))
  | none =>
    cases h2 : mlFirst (fun s => (tagDash ("DA").data s).bind RISParser.fourDigits) true record with
    | some y =>
      obtain ⟨u, hu⟩ := mlFirst_some _ true record y h2
      obtain ⟨v, _, hv⟩ := Option.bind_eq_some.mp hu
      exact articleOkB_year a _ h (fieldOkB_digit4 y (fourDigits_ok v y hv))
    | none => exact h

theorem ris_doi_stage_ok (record : PyStr) (a : Article) (h : articleOkB a = true) :
    articleOkB (RISParser.risDoiStage record a) = true := by
  unfold RISParser.risDoiStage
  cases mlFirst (fun s => ((tagDash ("DO").data s).bind risContentLine).map Prod.fst)
      true record with
  | none => exact h
  | some d =>
    dsimp only
    cases hdc : RISParser.clean_doi (pyStrip d) with
    | some dc => exact articleOkB_doi a _ h (doiOkB_of _ (clean_doi_some _ dc hdc).2)
    | none => exact h

theorem ris_abstract_stage_ok (record : PyStr) (a : Article) (h : articleOkB a = true) :
    articleOkB (RISParser.risAbstractStage record a) = true := by
  unfold RISParser.risAbstractStage
  cases mlFirst (fun s => (tagDash ("AB").data s).bind risContentDotall) true record with
  | none => exact h
  | some g =>
    dsimp only
    cases hac : RISParser.clean_abstract
        (List.map (fun c => if c = '\n' then ' ' else c) (pyStrip g)) with
    | some ac =>
      obtain ⟨h1, h2⟩ := clean_abstract_some _ ac hac
      exact articleOkB_abstract a _ h (fieldOkB_of _ h1 h2)
    | none => exact h

theorem extract_custom_ris_ok (record : PyStr) :
    articleOkB (RISParser.extract_custom_ris record) = true := by
  unfold RISParser.extract_custom_ris
  exact ris_abstract_stage_ok _ _ (ris_doi_stage_ok _ _ (ris_year_stage_ok _ _
    (ris_authors_stage_ok _ _ (ris_title_stage_ok _ _ articleOkB_allSem))))

theorem custom_ris_parse_ok (t : PyStr) (a : Article)
    (ha : a ∈ RISParser.custom_ris_parse t) : articleOkB a = true := by
  unfold RISParser.custom_ris_parse at ha
  obtain ⟨r, _, rfl⟩ := List.mem_map.mp ha
  exact extract_custom_ris_ok r

theorem firstTruthy_some (x y : Option PyStr) (v : PyStr)
    (h : RISParser.firstTruthy x y = some v) :
    (x = some v ∨ y = some v) ∧ v ≠ [] := by
  unfold RISParser.firstTruthy at h
  cases x with
  | some a =>
    dsimp only at h
    by_cases ha : a.isEmpty
    · rw [if_pos ha] at h
      cases y with
      | some b =>
        dsimp only at h
        by_cases hb : b.isEmpty
        · rw [if_pos hb] at h; exact Option.noConfusion h
        · rw [if_neg hb] at h
          injection h with h2
          subst h2
          exact ⟨Or.inr rfl, by simpa using hb⟩
      | none => exact Option.noConfusion h
    · rw [if_neg ha] at h
      injection h with h2
      subst h2
      exact ⟨Or.inl rfl, by simpa using ha⟩
  | none =>
    dsimp only at h
    cases y with
    | some b =>
      dsimp only at h
      by_cases hb : b.isEmpty
      · rw [if_pos hb] at h; exact Option.noConfusion h
      · rw [if_neg hb] at h
        injection h with h2
        subst h2
        exact ⟨Or.inr rfl, by simpa using hb⟩
    | none => exact Option.noConfusion h

theorem schema_title_stage_ok (e : RISParser.RisEntry) (a : Article)
    (hclean : risEntryClean e = true) (h : articleOkB a = true) :
    articleOkB (RISParser.schemaTitleStage e a) = true := by
  unfold RISParser.schemaTitleStage
  cases ht : RISParser.firstTruthy e.title e.primary_title with
  | none => exact h
  | some t =>
    obtain ⟨hsrc, htne⟩ := firstTruthy_some _ _ _ ht
    have hok : risValOk t = true := by
      unfold risEntryClean at hclean
      simp only [Bool.and_eq_true] at hclean
      rcases hsrc with h1 | h2
      · have := hclean.1.1.1
        rw [h1] at this
        exact this
      · have := hclean.1.1.2
        rw [h2] at this
        exact this
    have hstrip : pyStrip t ≠ [] := by
      unfold risValOk at hok
      rw [Bool.or_eq_true] at hok
      rcases hok with h1 | h2
      · exact absurd (by simpa using h1) htne
      · simpa using h2
    exact articleOkB_title a _ h (fieldOkB_strip t hstrip)

theorem schema_authors_stage_ok (e : RISParser.RisEntry) (a : Article)
    (hclean : risEntryClean e = true) (h : articleOkB a = true) :
    articleOkB (RISParser.schemaAuthorsStage e a) = true := by
  unfold RISParser.schemaAuthorsStage
  by_cases hne : (!(RISParser.schemaAuthorList e).isEmpty) = true
  · rw [if_pos hne]
    have hclean2 : e.authors.all risValOk = true ∧ e.first_authors.all risValOk = true := by
      unfold risEntryClean at hclean
      simp only [Bool.and_eq_true] at hclean
      exact ⟨hclean.1.2, hclean.2⟩
    have hparts : ∀ p ∈ RISParser.schemaAuthorList e, p ≠ [] ∧ trimmedB p = true := by
      intro p hp
      unfold RISParser.schemaAuthorList at hp
      have main : ∀ (src : List PyStr), src.all risValOk = true →
          p ∈ (src.filter (fun x => !x.isEmpty)).map pyStrip →
          p ≠ [] ∧ trimmedB p = true := by
        intro src hall hmem
        obtain ⟨x, hx, rfl⟩ := List.mem_map.mp hmem
        obtain ⟨hxm, hxne⟩ := List.mem_filter.mp hx
        have hvx : risValOk x = true := List.all_eq_true.mp hall x hxm
        unfold risValOk at hvx
        rw [Bool.or_eq_true] at hvx
        rcases hvx with h1 | h2
        · exact absurd h1 (by simpa using hxne)
        · exact ⟨by simpa using h2, trimmedB_pyStrip x⟩
      by_cases h1 : (!e.authors.isEmpty) = true
      · rw [if_pos h1] at hp
        exact main e.authors hclean2.1 hp
      · rw [if_neg h1] at hp
        by_cases h2 : (!e.first_authors.isEmpty) = true
        · rw [if_pos h2] at hp
          exact main e.first_authors hclean2.2 hp
        · rw [if_neg h2] at hp
          simp at hp
    have hlne : RISParser.schemaAuthorList e ≠ [] := by
      intro h0
      rw [h0] at hne
      simp at hne
    refine articleOkB_authors a _ h (fieldOkB_of _ ?_ ?_)
    · exact pyJoin_ne_nil _ _ hlne (fun p hp => (hparts p hp).1)
    · exact trimmedB_pyJoin _ _ hlne hparts
  · rw [if_neg hne]
    exact h

theorem schema_year_stage_ok (e : RISParser.RisEntry) (a : Article)
    (h : articleOkB a = true) : articleOkB (RISParser.schemaYearStage e a) = true := by
  unfold RISParser.schemaYearStage
  cases RISParser.firstTruthy e.year e.publication_year with
  | none => exact h
  | some y => exact year_branch_nofb_ok a y h

theorem schema_doi_stage_ok (e : RISParser.RisEntry) (a : Article)
    (h : articleOkB a = true) : articleOkB (RISParser.schemaDoiStage e a) = true := by
  unfold RISParser.schemaDoiStage
  cases e.doi with
  | none => exact h
  | some d =>
    dsimp only
    by_cases hd : d.isEmpty
    · rw [if_pos hd]; exact h
    · rw [if_neg hd]
      exact doi_branch_ok a d h

theorem schema_abstract_stage_ok (e : RISParser.RisEntry) (a : Article)
    (h : articleOkB a = true) : articleOkB (RISParser.schemaAbstractStage e a) = true := by
  unfold RISParser.schemaAbstractStage
  cases e.abstract with
  | none => exact h
  | some ab =>
    dsimp only
    by_cases hd : ab.isEmpty
    · rw [if_pos hd]; exact h
    · rw [if_neg hd]
      exact abstract_branch_ok a ab h

theorem extract_ris_fields_ok (e : RISParser.RisEntry) (hclean : risEntryClean e = true) :
    articleOkB (RISParser.extract_ris_fields e) = true := by
  unfold RISParser.extract_ris_fields
  exact schema_abstract_stage_ok _ _ (schema_doi_stage_ok _ _ (schema_year_stage_ok _ _
    (schema_authors_stage_ok _ _ hclean (schema_title_stage_ok _ _ hclean articleOkB_allSem))))

/-! ### Lemmas about the duplicate detector -/

theorem inter_length_comm (l1 l2 : List PyStr) (h1 : l1.Nodup) (h2 : l2.Nodup) :
    (l1.filter (fun w => decide (w ∈ l2))).length =
      (l2.filter (fun w => decide (w ∈ l1))).length := by
  have n1 : (l1.filter (fun w => decide (w ∈ l2))).Nodup := h1.filter _
  have n2 : (l2.filter (fun w => decide (w ∈ l1))).Nodup := h2.filter _
  rw [← List.toFinset_card_of_nodup n1, ← List.toFinset_card_of_nodup n2]
  congr 1
  ext x
  simp only [List.mem_toFinset, List.mem_filter, decide_eq_true_eq]
  exact and_comm

theorem union_dedup_length_comm (l1 l2 : List PyStr) :
    ((l1 ++ l2).dedup).length = ((l2 ++ l1).dedup).length := by
  rw [← List.card_toFinset, ← List.card_toFinset]
  congr 1
  ext x
  simp only [List.mem_toFinset, List.mem_append]
  exact or_comm

theorem titles_similar_symm (t1 t2 : PyStr) :
    DuplicateRemover.titles_are_similar t1 t2 = DuplicateRemover.titles_are_similar t2 t1 := by
  unfold DuplicateRemover.titles_are_similar
  by_cases h12 : (t1.isEmpty || t2.isEmpty) = true
  · have h21 : (t2.isEmpty || t1.isEmpty) = true := by rw [Bool.or_comm]; exact h12
    rw [if_pos h12, if_pos h21]
  · have h21 : ¬(t2.isEmpty || t1.isEmpty) = true := by rw [Bool.or_comm]; exact h12
    rw [if_neg h12, if_neg h21]
    dsimp only
    by_cases hw : ((pySplitWs t1).dedup.isEmpty || (pySplitWs t2).dedup.isEmpty) = true
    · have hw2 : ((pySplitWs t2).dedup.isEmpty || (pySplitWs t1).dedup.isEmpty) = true := by
        rw [Bool.or_comm]; exact hw
      rw [if_pos hw, if_pos hw2]
    · have hw2 : ¬((pySplitWs t2).dedup.isEmpty || (pySplitWs t1).dedup.isEmpty) = true := by
        rw [Bool.or_comm]; exact hw
      rw [if_neg hw, if_neg hw2]
      have hi := inter_length_comm (pySplitWs t1).dedup (pySplitWs t2).dedup
        (List.nodup_dedup _) (List.nodup_dedup _)
      have hu := union_dedup_length_comm (pySplitWs t1).dedup (pySplitWs t2).dedup
      rw [hi, hu]

theorem linkedB_symm (a b : Article) : linkedB a b = linkedB b a := by
  unfold linkedB
  rw [titles_similar_symm]
  rw [Bool.and_comm (decide (a.title ≠ semInfo)) (decide (b.title ≠ semInfo))]
  rw [Bool.and_comm (decide (a.doi ≠ semInfo)) (decide (b.doi ≠ semInfo))]
  congr 2
  simp only [decide_eq_decide]
  exact eq_comm

theorem range_filter_eq_single (n b : Nat) (hb : b < n) :
    (List.range n).filter (fun i => decide (i = b)) = [b] := by
  induction n with
  | zero => omega
  | succ n ih =>
    rw [List.range_succ, List.filter_append]
    by_cases hbn : b = n
    · subst hbn
      have h1 : (List.range b).filter (fun i => decide (i = b)) = [] := by
        rw [List.filter_eq_nil_iff]
        intro i hi
        have := List.mem_range.mp hi
        simp only [decide_eq_true_eq]
        omega
      rw [h1]
      simp
    · have h2 : b < n := by omega
      rw [ih h2]
      have hne : n ≠ b := fun hc => hbn hc.symm
      simp [hne]

theorem range_filter_ne_length (n b : Nat) (hb : b < n) :
    ((List.range n).filter (fun i => decide (i ≠ b))).length = n - 1 := by
  induction n with
  | zero => omega
  | succ n ih =>
    rw [List.range_succ, List.filter_append, List.length_append]
    by_cases hbn : b = n
    · subst hbn
      have h1 : (List.range b).filter (fun i => decide (i ≠ b)) = List.range b := by
        rw [List.filter_eq_self]
        intro i hi
        have := List.mem_range.mp hi
        simp only [decide_eq_true_eq]
        omega
      rw [h1]
      simp [List.length_range]
    · have h2 : b < n := by omega
      rw [ih h2]
      have h3 : (List.filter (fun i => decide (i ≠ b)) [n]).length = 1 := by
        have hne : n ≠ b := fun hc => hbn hc.symm
        simp [hne]
      rw [h3]
      omega

theorem select_best_mem (rs : List Article) (idxs : List Nat) (h : idxs ≠ []) :
    DuplicateRemover.select_best rs idxs ∈ idxs := by
  unfold DuplicateRemover.select_best
  cases idxs with
  | nil => exact absurd rfl h
  | cons i0 rest =>
    have main : ∀ (l : List Nat) (b : Nat × Nat), b.1 ∈ i0 :: rest →
        (∀ x ∈ l, x ∈ i0 :: rest) →
        (l.foldl (fun b i =>
          if DuplicateRemover.quality_score (rs.getD i default) > b.2 then
            (i, DuplicateRemover.quality_score (rs.getD i default))
          else b) b).1 ∈ i0 :: rest := by
      intro l
      induction l with
      | nil => intro b hb _; exact hb
      | cons x xs ih =>
        intro b hb hsub
        rw [List.foldl_cons]
        by_cases hx : DuplicateRemover.quality_score (rs.getD x default) > b.2
        · rw [if_pos hx]
          exact ih _ (hsub x (by simp)) (fun z hz => hsub z (by simp [hz]))
        · rw [if_neg hx]
          exact ih _ hb (fun z hz => hsub z (by simp [hz]))
    exact main (i0 :: rest) (i0, 0) (by simp) (fun x hx => hx)

theorem find_title_matches_linked (rs : List Article) (idx : Nat) (processed : List Nat)
    (htitle : (rs.getD idx default).title ≠ semInfo) (i : Nat)
    (hi : i ∈ DuplicateRemover.find_title_matches rs (rs.getD idx default).title processed) :
    i < rs.length ∧ linkedB (rs.getD idx default) (rs.getD i default) = true := by
  unfold DuplicateRemover.find_title_matches at hi
  rw [if_neg htitle] at hi
  dsimp only at hi
  obtain ⟨hrange, hcond⟩ := List.mem_filter.mp hi
  refine ⟨List.mem_range.mp hrange, ?_⟩
  simp only [Bool.and_eq_true] at hcond
  unfold linkedB
  rw [Bool.or_eq_true]
  left
  simp only [Bool.and_eq_true]
  exact ⟨⟨by simpa using htitle, hcond.1.2⟩, hcond.2⟩

theorem find_doi_matches_linked (rs : List Article) (idx : Nat) (processed : List Nat)
    (hdoi : (rs.getD idx default).doi ≠ semInfo) (i : Nat)
    (hi : i ∈ DuplicateRemover.find_doi_matches rs (rs.getD idx default).doi processed) :
    i < rs.length ∧ linkedB (rs.getD idx default) (rs.getD i default) = true := by
  unfold DuplicateRemover.find_doi_matches at hi
  rw [if_neg hdoi] at hi
  dsimp only at hi
  obtain ⟨hrange, hcond⟩ := List.mem_filter.mp hi
  refine ⟨List.mem_range.mp hrange, ?_⟩
  simp only [Bool.and_eq_true] at hcond
  unfold linkedB
  rw [Bool.or_eq_true]
  right
  simp only [Bool.and_eq_true]
  exact ⟨⟨by simpa using hdoi, hcond.1.2⟩, by simpa using hcond.2⟩

theorem dup_step_no_group (rs : List Article)
    (hpw : ∀ i j, i < rs.length → j < rs.length → i ≠ j →
      linkedB (rs.getD i default) (rs.getD j default) = false)
    (st : List Nat × List DuplicateRemover.DupInfo) (idx : Nat) (hidx : idx < rs.length) :
    (DuplicateRemover.dup_step rs st idx).2 = st.2 := by
  unfold DuplicateRemover.dup_step
  by_cases h0 : idx ∈ st.1
  · rw [if_pos h0]
  · rw [if_neg h0]
    dsimp only
    by_cases h1 : (decide ((rs.getD idx default).title = semInfo) ||
        decide ((rs.getD idx default).doi = semInfo)) = true
    · rw [if_pos h1]
    · rw [if_neg h1]
      have h1a : (rs.getD idx default).title ≠ semInfo := by
        intro hc; exact h1 (by rw [hc]; simp)
      have h1b : (rs.getD idx default).doi ≠ semInfo := by
        intro hc; exact h1 (by rw [hc]; simp)
      have hall : (List.range rs.length).filter
          (fun i => i ∈ DuplicateRemover.find_title_matches rs (rs.getD idx default).title st.1 ||
            i ∈ DuplicateRemover.find_doi_matches rs (rs.getD idx default).doi st.1 ||
            i = idx) = [idx] := by
        rw [List.filter_congr (l := List.range rs.length)
          (q := fun i => decide (i = idx)) ?_]
        · exact range_filter_eq_single rs.length idx hidx
        · intro i hi
          have hiR := List.mem_range.mp hi
          by_cases hieq : i = idx
          · simp [hieq]
          · have hnt : i ∉ DuplicateRemover.find_title_matches rs
                (rs.getD idx default).title st.1 := by
              intro hmem
              obtain ⟨hlt, hlink⟩ := find_title_matches_linked rs idx st.1 h1a i hmem
              exact absurd hlink (by rw [hpw idx i hidx hlt (fun hc => hieq hc.symm)]; simp)
            have hnd : i ∉ DuplicateRemover.find_doi_matches rs
                (rs.getD idx default).doi st.1 := by
              intro hmem
              obtain ⟨hlt, hlink⟩ := find_doi_matches_linked rs idx st.1 h1b i hmem
              exact absurd hlink (by rw [hpw idx i hidx hlt (fun hc => hieq hc.symm)]; simp)
            rw [decide_eq_false hnt, decide_eq_false hnd, decide_eq_false hieq]
            show (false || false || false) = decide (i = idx)
            rw [decide_eq_false hieq]
            rfl
      rw [hall]
      rw [if_neg (by simp)]

theorem fold_dup_no_group (rs : List Article)
    (hpw : ∀ i j, i < rs.length → j < rs.length → i ≠ j →
      linkedB (rs.getD i default) (rs.getD j default) = false) :
    ∀ (l : List Nat) (st : List Nat × List DuplicateRemover.DupInfo),
      (∀ i ∈ l, i < rs.length) →
      (l.foldl (DuplicateRemover.dup_step rs) st).2 = st.2 := by
  intro l
  induction l with
  | nil => intro st _; rfl
  | cons x xs ih =>
    intro st hl
    rw [List.foldl_cons]
    rw [ih (DuplicateRemover.dup_step rs st x) (fun i hi => hl i (by simp [hi]))]
    exact dup_step_no_group rs hpw st x (hl x (by simp))

theorem pairwise_linked_indexed (rs : List Article)
    (hpw : List.Pairwise (fun a b => linkedB a b = false) rs) :
    ∀ i j, i < rs.length → j < rs.length → i ≠ j →
      linkedB (rs.getD i default) (rs.getD j default) = false := by
  intro i j hi hj hne
  have hget := List.pairwise_iff_get.mp hpw
  rcases Nat.lt_or_ge i j with hij | hij
  · have := hget ⟨i, hi⟩ ⟨j, hj⟩ hij
    rw [List.getD_eq_getElem rs default hi, List.getD_eq_getElem rs default hj]
    simpa [List.get_eq_getElem] using this
  · have hji : j < i := by omega
    have := hget ⟨j, hj⟩ ⟨i, hi⟩ hji
    rw [List.getD_eq_getElem rs default hi, List.getD_eq_getElem rs default hj]
    rw [linkedB_symm]
    simpa [List.get_eq_getElem] using this

theorem remove_duplicates_id (rs : List Article)
    (hpw : List.Pairwise (fun a b => linkedB a b = false) rs) :
    DuplicateRemover.remove_duplicates rs = (rs, []) := by
  unfold DuplicateRemover.remove_duplicates
  by_cases hn : rs.isEmpty
  · rw [if_pos hn]
    cases rs with
    | nil => rfl
    | cons a as => simp at hn
  · rw [if_neg hn]
    dsimp only
    have hfold := fold_dup_no_group rs (pairwise_linked_indexed rs hpw)
      (List.range rs.length) ([], []) (fun i hi => List.mem_range.mp hi)
    rw [hfold]
    dsimp only [List.map_nil]
    have hfilter : rs.enum.filter (fun p => decide (p.1 ∉ ([] : List Nat))) = rs.enum := by
      rw [List.filter_eq_self]
      intro a _
      simp
    rw [hfilter, List.enum_map_snd]

theorem linked_gives_match (rs : List Article) (idx i : Nat) (hi : i < rs.length)
    (hT : (rs.getD idx default).title ≠ semInfo)
    (hD : (rs.getD idx default).doi ≠ semInfo)
    (hlink : linkedB (rs.getD idx default) (rs.getD i default) = true) :
    i ∈ DuplicateRemover.find_title_matches rs (rs.getD idx default).title [] ∨
    i ∈ DuplicateRemover.find_doi_matches rs (rs.getD idx default).doi [] := by
  unfold linkedB at hlink
  rw [Bool.or_eq_true] at hlink
  rcases hlink with h | h
  · left
    unfold DuplicateRemover.find_title_matches
    rw [if_neg hT]
    dsimp only
    rw [List.mem_filter]
    refine ⟨List.mem_range.mpr hi, ?_⟩
    simp only [Bool.and_eq_true] at h ⊢
    exact ⟨⟨by simp, h.1.2⟩, h.2⟩
  · right
    unfold DuplicateRemover.find_doi_matches
    rw [if_neg hD]
    dsimp only
    rw [List.mem_filter]
    refine ⟨List.mem_range.mpr hi, ?_⟩
    simp only [Bool.and_eq_true] at h ⊢
    refine ⟨⟨by simp, h.1.2⟩, ?_⟩
    simp only [decide_eq_true_eq] at h ⊢
    exact h.2

theorem fold_dup_processed (rs : List Article) :
    ∀ (l : List Nat) (st : List Nat × List DuplicateRemover.DupInfo),
      (∀ i ∈ l, i ∈ st.1) → l.foldl (DuplicateRemover.dup_step rs) st = st := by
  intro l
  induction l with
  | nil => intro st _; rfl
  | cons x xs ih =>
    intro st hl
    rw [List.foldl_cons]
    have hx : DuplicateRemover.dup_step rs st x = st := by
      unfold DuplicateRemover.dup_step
      rw [if_pos (hl x (by simp))]
    rw [hx]
    exact ih st (fun i hi => hl i (by simp [hi]))

theorem enum_filter_fst_length {α : Type} (rs : List α) (p : Nat → Bool) :
    ((rs.enum.filter (fun q => p q.1)).map Prod.snd).length =
      ((List.range rs.length).filter p).length := by
  rw [List.length_map, ← List.countP_eq_length_filter, ← List.countP_eq_length_filter]
  rw [← List.enum_map_fst rs, List.countP_map]
  rfl

theorem remove_duplicates_all_linked (r0 : Article) (rest : List Article)
    (hknown : ∀ a ∈ r0 :: rest, a.title ≠ semInfo ∧ a.doi ≠ semInfo)
    (hlink : ∀ a ∈ r0 :: rest, linkedB r0 a = true) :
    (DuplicateRemover.remove_duplicates (r0 :: rest)).1.length = 1 ∧
    (DuplicateRemover.remove_duplicates (r0 :: rest)).2.length = rest.length := by
  cases rest with
  | nil =>
    rw [remove_duplicates_id [r0] (by simp)]
    simp
  | cons q rest2 =>
    have hT0 : ((r0 :: q :: rest2).getD 0 default).title ≠ semInfo := (hknown r0 (by simp)).1
    have hD0 : ((r0 :: q :: rest2).getD 0 default).doi ≠ semInfo := (hknown r0 (by simp)).2
    have hall : (List.range (r0 :: q :: rest2).length).filter
        (fun i => decide (i ∈ DuplicateRemover.find_title_matches (r0 :: q :: rest2)
            ((r0 :: q :: rest2).getD 0 default).title []) ||
          decide (i ∈ DuplicateRemover.find_doi_matches (r0 :: q :: rest2)
            ((r0 :: q :: rest2).getD 0 default).doi []) ||
          decide (i = 0)) = List.range (r0 :: q :: rest2).length := by
      rw [List.filter_eq_self]
      intro i hi
      by_cases hi0 : i = 0
      · simp [hi0]
      · have hilt : i < (r0 :: q :: rest2).length := List.mem_range.mp hi
        have hmem : (r0 :: q :: rest2).getD i default ∈ (r0 :: q :: rest2) := by
          rw [List.getD_eq_getElem _ default hilt]
          exact List.getElem_mem _
        have hl := hlink _ hmem
        have hmm := linked_gives_match (r0 :: q :: rest2) 0 i hilt hT0 hD0 hl
        simp only [Bool.or_eq_true, decide_eq_true_eq]
        rcases hmm with hm | hm
        · exact Or.inl (Or.inl hm)
        · exact Or.inl (Or.inr hm)
    have hstep0 : DuplicateRemover.dup_step (r0 :: q :: rest2) ([], []) 0 =
        (List.range (r0 :: q :: rest2).length,
         ((List.range (r0 :: q :: rest2).length).filter
             (fun i => decide (i ≠ DuplicateRemover.select_best (r0 :: q :: rest2)
               (List.range (r0 :: q :: rest2).length)))).map
           (fun i => DuplicateRemover.mkDupInfo (r0 :: q :: rest2) i
             (DuplicateRemover.select_best (r0 :: q :: rest2)
               (List.range (r0 :: q :: rest2).length)))) := by
      unfold DuplicateRemover.dup_step
      rw [if_neg (by simp)]
      dsimp only
      rw [if_neg (by
        simp only [Bool.or_eq_true, decide_eq_true_eq]
        rintro (hc | hc)
        · exact hT0 hc
        · exact hD0 hc)]
      rw [hall]
      rw [if_pos (by simp [List.length_range])]
      simp
    have hbest : DuplicateRemover.select_best (r0 :: q :: rest2)
        (List.range (r0 :: q :: rest2).length) < (r0 :: q :: rest2).length := by
      have := select_best_mem (r0 :: q :: rest2) (List.range (r0 :: q :: rest2).length)
        (by simp [List.range_eq_nil])
      exact List.mem_range.mp this
    unfold DuplicateRemover.remove_duplicates
    rw [if_neg (by simp)]
    dsimp only
    rw [show List.range (r0 :: q :: rest2).length =
        0 :: (List.range (rest2.length + 1)).map Nat.succ from by
      simp only [List.length_cons]
      exact List.range_succ_eq_map _]
    rw [List.foldl_cons, hstep0]
    rw [fold_dup_processed (r0 :: q :: rest2) _ _ (by
      intro i hi
      obtain ⟨j, hj, rfl⟩ := List.mem_map.mp hi
      have hjlt := List.mem_range.mp hj
      show Nat.succ j ∈ List.range (r0 :: q :: rest2).length
      refine List.mem_range.mpr ?_
      simp only [List.length_cons]
      omega)]
    dsimp only
    constructor
    · -- survivors
      rw [List.map_map]
      have htr : ((List.range (r0 :: q :: rest2).length).filter
            (fun i => decide (i ≠ DuplicateRemover.select_best (r0 :: q :: rest2)
              (List.range (r0 :: q :: rest2).length)))).map
          ((fun d => d.original_index) ∘ (fun i => DuplicateRemover.mkDupInfo (r0 :: q :: rest2) i
            (DuplicateRemover.select_best (r0 :: q :: rest2)
              (List.range (r0 :: q :: rest2).length)))) =
          (List.range (r0 :: q :: rest2).length).filter
            (fun i => decide (i ≠ DuplicateRemover.select_best (r0 :: q :: rest2)
              (List.range (r0 :: q :: rest2).length))) := by
        apply List.map_id''
        intro i
        rfl
      rw [htr]
      rw [enum_filter_fst_length (r0 :: q :: rest2)
        (fun i => decide (i ∉ (List.range (r0 :: q :: rest2).length).filter
          (fun j => decide (j ≠ DuplicateRemover.select_best (r0 :: q :: rest2)
            (List.range (r0 :: q :: rest2).length)))))]
      rw [List.filter_congr (q := fun i => decide (i = DuplicateRemover.select_best
          (r0 :: q :: rest2) (List.range (r0 :: q :: rest2).length))) ?_]
      · rw [range_filter_eq_single _ _ hbest]
        rfl
      · intro i hi
        dsimp only
        have hilt := List.mem_range.mp hi
        rcases Decidable.eq_or_ne i (DuplicateRemover.select_best (r0 :: q :: rest2)
            (List.range (r0 :: q :: rest2).length)) with heq | hne
        · rw [decide_eq_true heq]
          have : i ∉ (List.range (r0 :: q :: rest2).length).filter
              (fun j => decide (j ≠ DuplicateRemover.select_best (r0 :: q :: rest2)
                (List.range (r0 :: q :: rest2).length))) := by
            intro hcon
            obtain ⟨_, hc2⟩ := List.mem_filter.mp hcon
            simp only [decide_eq_true_eq] at hc2
            exact hc2 heq
          rw [decide_eq_true this]
        · have : i ∈ (List.range (r0 :: q :: rest2).length).filter
              (fun j => decide (j ≠ DuplicateRemover.select_best (r0 :: q :: rest2)
                (List.range (r0 :: q :: rest2).length))) := by
            rw [List.mem_filter]
            exact ⟨hi, by simpa using hne⟩
          rw [decide_eq_false (by simpa using this), decide_eq_false hne]
    · -- audit entries
      rw [List.length_map]
      rw [range_filter_ne_length _ _ hbest]
      simp

/-! ### Idempotence analysis of `normalize_doi` -/

theorem pyReplaceGo_eq_self (pat rep : PyStr) :
    ∀ (fuel : Nat) (s : PyStr), containsSub pat s = false →
      pyReplaceGo pat rep fuel s = s := by
  intro fuel
  induction fuel with
  | zero => intro s _; rfl
  | succ fuel ih =>
    intro s hc
    cases s with
    | nil => rfl
    | cons c rest =>
      rw [containsSub.eq_def] at hc
      dsimp only at hc
      rw [Bool.or_eq_false_iff] at hc
      unfold pyReplaceGo
      by_cases hp : pat.isEmpty
      · rw [if_pos hp]
      · rw [if_neg hp]
        rw [if_neg (by rw [hc.1]; exact Bool.false_ne_true)]
        rw [ih rest hc.2]

theorem pyReplace_eq_self (pat rep s : PyStr) (hc : containsSub pat s = false) :
    pyReplace pat rep s = s :=
  pyReplaceGo_eq_self pat rep s.length s hc

theorem normalize_doi_ne_nil (s : PyStr) : normalize_doi s ≠ [] := by
  unfold normalize_doi
  by_cases h1 : (s.isEmpty || decide (s = semInfo)) = true
  · rw [if_pos h1]
    intro h0
    exact absurd h0 (by decide)
  · rw [if_neg h1]
    dsimp only
    by_cases h2 : (pyRStripPunct
        (pyReplace ("http://dx.doi.org/").data []
          (pyReplace ("https://doi.org/").data []
            (pyStrip (pyReplace ("DOI:").data [] (pyReplace ("doi:").data [] s)))))).isEmpty
    · rw [if_pos h2]
      intro h0
      exact absurd h0 (by decide)
    · rw [if_neg h2]
      intro h0
      rw [h0] at h2
      exact h2 rfl

theorem normalize_doi_sem : normalize_doi semInfo = semInfo := by decide

theorem normalize_doi_of_stable (r : PyStr) (hr : r ≠ []) (hsem : r ≠ semInfo)
    (h : normalizeDoiStable r = true) : normalize_doi r = r := by
  unfold normalizeDoiStable at h
  rw [if_neg hsem] at h
  simp only [Bool.and_eq_true, Bool.not_eq_true'] at h
  obtain ⟨⟨⟨⟨⟨hc1, hc2⟩, hc3⟩, hc4⟩, htrim⟩, hpunct⟩ := h
  unfold normalize_doi
  rw [if_neg (by
    simp only [Bool.or_eq_true, decide_eq_true_eq, List.isEmpty_iff]
    rintro (hc | hc)
    · exact hr hc
    · exact hsem hc)]
  dsimp only
  rw [pyReplace_eq_self _ _ _ hc1, pyReplace_eq_self _ _ _ hc2]
  rw [pyStrip_eq_self r htrim]
  rw [pyReplace_eq_self _ _ _ hc3, pyReplace_eq_self _ _ _ hc4]
  have hrs : pyRStripPunct r = r := by
    unfold pyRStripPunct
    apply pyDropRight_eq_self
    intro c hc
    cases hre : r.reverse.head? with
    | none => rw [hre] at hc; exact Option.noConfusion hc
    | some c2 =>
      rw [hre] at hc
      injection hc with hc
      subst hc
      rw [hre] at hpunct
      dsimp only at hpunct
      simp only [Bool.not_eq_true'] at hpunct
      exact hpunct
  rw [hrs]
  rw [if_neg (by simpa using hr)]

theorem normalize_doi_stable_idem (s : PyStr)
    (h : normalizeDoiStable (normalize_doi s) = true) :
    normalize_doi (normalize_doi s) = normalize_doi s := by
  by_cases hsem : normalize_doi s = semInfo
  · rw [hsem]
    exact normalize_doi_sem
  · exact normalize_doi_of_stable _ (normalize_doi_ne_nil s) hsem h

/-! ### The year scanner against its positional specification -/

theorem yearTokAux_zero (prev : Option Char) (a b c d : Char) (rest : PyStr) :
    yearTokAux prev (a :: b :: c :: d :: rest) 0 =
      (boundB prev &&
       ((a = '1' && b = '9') || (a = '2' && b = '0')) &&
       c.isDigit && d.isDigit &&
       (match rest with
        | [] => true
        | e :: _ => !isWordChar e)) := by
  cases rest with
  | nil =>
    simp [yearTokAux, List.getD, Bool.and_comm, Bool.and_left_comm, Bool.and_assoc]
  | cons e tail =>
    simp [yearTokAux, List.getD, Bool.and_comm, Bool.and_left_comm, Bool.and_assoc,
      Nat.succ_ne_zero, (by omega : ¬((0 : Nat) + 4 = tail.length + 1 + 1 + 1 + 1 + 1))]

theorem yearTokAux_shift (prev : Option Char) (a : Char) (t : PyStr) (j : Nat) :
    yearTokAux prev (a :: t) (j + 1) = yearTokAux (some a) t j := by
  cases j with
  | zero =>
    simp [yearTokAux, boundB, List.getD_cons_succ, List.getD_cons_zero, List.length_cons,
      (by omega : (0 + 1 + 4 ≤ t.length + 1) ↔ (0 + 4 ≤ t.length)),
      (by omega : (0 + 1 + 4 = t.length + 1) ↔ (0 + 4 = t.length))]
  | succ k =>
    simp [yearTokAux, List.getD_cons_succ, List.length_cons,
      (by omega : (k + 1 + 1 + 4 ≤ t.length + 1) ↔ (k + 1 + 4 ≤ t.length)),
      (by omega : (k + 1 + 1 + 4 = t.length + 1) ↔ (k + 1 + 4 = t.length))]

theorem find_short_none (prev : Option Char) (s : PyStr) (h : s.length ≤ 3) :
    (List.range s.length).find? (yearTokAux prev s) = none := by
  rw [List.find?_eq_none]
  intro x hx
  rw [List.mem_range] at hx
  intro hcon
  unfold yearTokAux at hcon
  simp only [Bool.and_eq_true, decide_eq_true_eq] at hcon
  have h1 := hcon.1.1.1.1.1
  omega

theorem yearScan_eq_find : ∀ (s : PyStr) (prev : Option Char),
    yearScan prev s =
      ((List.range s.length).find? (yearTokAux prev s)).map
        (fun i => (s.drop i).take 4) := by
  intro s
  induction s with
  | nil => intro prev; rfl
  | cons a t ih =>
    intro prev
    rcases t with _ | ⟨b, t2⟩
    · rw [find_short_none prev _ (by simp)]; rfl
    rcases t2 with _ | ⟨c, t3⟩
    · rw [find_short_none prev _ (by simp)]; rfl
    rcases t3 with _ | ⟨d, rest⟩
    · rw [find_short_none prev _ (by simp)]; rfl
    have hzero := yearTokAux_zero prev a b c d rest
    rw [yearScan.eq_def]
    dsimp only
    split
    next hcond =>
      have hp0 : yearTokAux prev (a :: b :: c :: d :: rest) 0 = true := by
        rw [hzero]; exact hcond
      have hrhs : List.range (a :: b :: c :: d :: rest : PyStr).length
          = 0 :: (List.range (b :: c :: d :: rest : PyStr).length).map Nat.succ := by
        have h4 : (a :: b :: c :: d :: rest : PyStr).length
            = (b :: c :: d :: rest : PyStr).length + 1 := rfl
        rw [h4, List.range_succ_eq_map]
      rw [hrhs]
      rw [List.find?_cons_of_pos _ hp0]
      rfl
    next hcond =>
      have hp0 : ¬ yearTokAux prev (a :: b :: c :: d :: rest) 0 = true := by
        rw [hzero]; exact hcond
      have hrhs : List.range (a :: b :: c :: d :: rest : PyStr).length
          = 0 :: (List.range (b :: c :: d :: rest : PyStr).length).map Nat.succ := by
        have h4 : (a :: b :: c :: d :: rest : PyStr).length
            = (b :: c :: d :: rest : PyStr).length + 1 := rfl
        rw [h4, List.range_succ_eq_map]
      rw [hrhs]
      rw [List.find?_cons_of_neg _ hp0]
      rw [List.find?_map]
      have hcomp : (yearTokAux prev (a :: b :: c :: d :: rest)) ∘ Nat.succ
          = yearTokAux (some a) (b :: c :: d :: rest) := by
        funext j
        exact yearTokAux_shift prev a _ j
      rw [hcomp]
      rw [ih (some a)]
      cases hfind : (List.range ((b :: c :: d :: rest : PyStr).length)).find?
          (yearTokAux (some a) (b :: c :: d :: rest)) with
      | none => rfl
      | some j => rfl

theorem yearTokAux_none (s : PyStr) :
    yearTokAux none s = yearTokenAtIdx s := by
  funext i
  cases i with
  | zero => simp [yearTokAux, yearTokenAtIdx, boundB]
  | succ j => simp [yearTokAux, yearTokenAtIdx, boundB]

theorem regexSearchYear_spec (s : PyStr) : regexSearchYear s = specYearFirst s := by
  unfold regexSearchYear specYearFirst
  rw [yearScan_eq_find s none, yearTokAux_none]

theorem extract_year_spec (s : PyStr) :
    extract_year_from_date s =
      (match specYearFirst s with
       | some y => y
       | none => semInfo) := by
  unfold extract_year_from_date
  by_cases h : s.isEmpty
  · rw [if_pos h]
    have hs : s = [] := by
      cases s with
      | nil => rfl
      | cons c r => exact absurd h (by simp [List.isEmpty])
    subst hs
    rfl
  · rw [if_neg h, regexSearchYear_spec]

/-! ### The ER-terminator regex against its line-structured specification -/

theorem splitNl_ne_nil : ∀ (s : PyStr), splitNl s ≠ [] := by
  intro s
  cases s with
  | nil => exact (by simp [splitNl])
  | cons c rest =>
    unfold splitNl
    by_cases hc : c = '\n'
    · rw [if_pos hc]; exact (by simp)
    · rw [if_neg hc]
      cases splitNl rest with
      | nil => exact (by simp)
      | cons l ls => exact (by simp)

theorem splitNl_head : ∀ (s : PyStr),
    (splitNl s).head? = some (s.takeWhile (fun d => !(d = '\n'))) := by
  intro s
  induction s with
  | nil => rfl
  | cons c rest ih =>
    unfold splitNl
    by_cases hc : c = '\n'
    · rw [if_pos hc]
      subst hc
      simp [List.takeWhile]
    · rw [if_neg hc]
      cases hsp : splitNl rest with
      | nil => exact absurd hsp (splitNl_ne_nil rest)
      | cons l ls =>
        rw [hsp] at ih
        simp only [List.head?] at ih
        injection ih with ih
        simp only [List.head?, List.takeWhile]
        rw [decide_eq_false hc]
        simp only [Bool.not_false, if_pos rfl]
        rw [ih]

theorem splitNl_no_nl (s : PyStr) (h : s.any (fun d => d = '\n') = false) :
    splitNl s = [s] := by
  induction s with
  | nil => rfl
  | cons c rest ih =>
    simp only [List.any_cons, Bool.or_eq_false_iff] at h
    unfold splitNl
    rw [if_neg (by intro hc; rw [hc] at h; exact absurd h.1 (by simp))]
    rw [ih h.2]

theorem splitNl_two_of_nl (s : PyStr) (h : s.any (fun d => d = '\n') = true) :
    2 ≤ (splitNl s).length := by
  induction s with
  | nil => exact absurd h (by simp)
  | cons c rest ih =>
    unfold splitNl
    by_cases hc : c = '\n'
    · rw [if_pos hc]
      cases hsp : splitNl rest with
      | nil => exact absurd hsp (splitNl_ne_nil rest)
      | cons l ls => simp only [List.length_cons]; omega
    · rw [if_neg hc]
      have hrest : rest.any (fun d => d = '\n') = true := by
        simp only [List.any_cons, Bool.or_eq_true] at h
        rcases h with h | h
        · exact absurd (of_decide_eq_true h) hc
        · exact h
      have h2 := ih hrest
      cases hsp : splitNl rest with
      | nil => exact absurd hsp (splitNl_ne_nil rest)
      | cons l ls =>
        rw [hsp] at h2
        simp only [List.length_cons] at h2 ⊢
        omega

theorem any_false_sublist {q : Char → Bool} {l1 l2 : PyStr} (hsub : l1.Sublist l2)
    (h : l2.any q = false) : l1.any q = false := by
  rw [List.any_eq_false] at h ⊢
  intro x hx
  exact h x (hsub.subset hx)

theorem takeWhile_space_nl (r2 : PyStr) (h : r2.any (fun d => d = '\n') = true) :
    (r2.takeWhile pyIsSpace).any (fun d => d = '\n')
      = (r2.takeWhile (fun d => !(d = '\n'))).all pyIsSpace := by
  induction r2 with
  | nil => exact absurd h (by simp)
  | cons x xs ih =>
    by_cases hx : x = '\n'
    · subst hx
      simp [List.takeWhile, pyIsSpace]
    · have hxs : xs.any (fun d => d = '\n') = true := by
        simp only [List.any_cons, Bool.or_eq_true] at h
        rcases h with h | h
        · exact absurd (of_decide_eq_true h) hx
        · exact h
      by_cases hws : pyIsSpace x = true
      · simp only [List.takeWhile, hws, decide_eq_false hx, Bool.not_false, if_pos rfl]
        simp only [List.any_cons, List.all_cons, decide_eq_false hx, hws, Bool.false_or,
          Bool.true_and]
        exact ih hxs
      · have hws2 : pyIsSpace x = false := Bool.eq_false_iff.mpr hws
        simp only [List.takeWhile, hws2, decide_eq_false hx, Bool.not_false]
        simp only [List.any_nil, List.all_cons, hws2, Bool.false_and]

theorem startsWithER_takeWhile (rest : PyStr) :
    pyStartsWith ("ER").data (rest.takeWhile (fun d => !(d = '\n')))
      = pyStartsWith ("ER").data rest := by
  have hER : ("ER").data = ['E', 'R'] := rfl
  rw [hER]
  rcases rest with _ | ⟨x, _ | ⟨y, rest3⟩⟩
  · rfl
  · by_cases hx : x = '\n'
    · subst hx
      simp [List.takeWhile, pyStartsWith]
    · simp [List.takeWhile, decide_eq_false hx, pyStartsWith]
  · by_cases hx : x = '\n'
    · subst hx
      simp [List.takeWhile, pyStartsWith]
    · by_cases hy : y = '\n'
      · subst hy
        simp [List.takeWhile, decide_eq_false hx, pyStartsWith]
      · simp [List.takeWhile, decide_eq_false hx, decide_eq_false hy, pyStartsWith]

theorem erP_firstLine (rest : PyStr) (h : rest.any (fun d => d = '\n') = true) :
    (pyStartsWith ("ER").data rest &&
      ((rest.drop 2).takeWhile pyIsSpace).any (fun d => d = '\n'))
      = isErWsLine (rest.takeWhile (fun d => !(d = '\n'))) := by
  unfold isErWsLine
  rw [startsWithER_takeWhile]
  by_cases hs : pyStartsWith ("ER").data rest = true
  · rw [hs]
    simp only [Bool.true_and]
    rcases rest with _ | ⟨a, _ | ⟨b, r2⟩⟩
    · exact absurd hs (by simp [pyStartsWith])
    · exact absurd hs (by simp [pyStartsWith])
    · have hER : ("ER").data = ['E', 'R'] := rfl
      rw [hER] at hs
      simp only [pyStartsWith, Bool.and_eq_true, decide_eq_true_eq] at hs
      obtain ⟨ha, hb, -⟩ := hs
      subst ha
      subst hb
      have hr2 : r2.any (fun d => d = '\n') = true := by
        simp only [List.any_cons] at h
        simpa using h
      have htw : (('E' :: 'R' :: r2 : PyStr).takeWhile (fun d => !(d = '\n')))
          = 'E' :: 'R' :: (r2.takeWhile (fun d => !(d = '\n'))) := by
        simp [List.takeWhile]
      rw [htw]
      show (List.takeWhile pyIsSpace r2).any (fun d => decide (d = '\n'))
          = (List.takeWhile (fun d => !(d = '\n')) r2).all pyIsSpace
      exact takeWhile_space_nl r2 hr2
  · have hs2 : pyStartsWith ("ER").data rest = false := Bool.eq_false_iff.mpr hs
    rw [hs2]
    simp

theorem containsErLine_spec : ∀ (t : PyStr), TXTParser.containsErLine t = erSpecLines t := by
  intro t
  induction t with
  | nil => rfl
  | cons c rest ih =>
    unfold TXTParser.containsErLine
    by_cases hc : c = '\n'
    · subst hc
      rw [decide_eq_true rfl]
      simp only [Bool.true_and]
      have hsp0 : splitNl ('\n' :: rest) = [] :: splitNl rest := rfl
      rw [ih]
      unfold erSpecLines
      rw [hsp0]
      cases hsp : splitNl rest with
      | nil => exact absurd hsp (splitNl_ne_nil rest)
      | cons fl tl =>
        have hfl : fl = rest.takeWhile (fun d => !(d = '\n')) := by
          have hh := splitNl_head rest
          rw [hsp] at hh
          simp only [List.head?, Option.some.injEq] at hh
          exact hh
        by_cases hAny : rest.any (fun d => d = '\n') = true
        · have h2 := splitNl_two_of_nl rest hAny
          rw [hsp] at h2
          cases tl with
          | nil =>
            simp only [List.length_cons, List.length_nil] at h2
            omega
          | cons x xs =>
            show _ = (isErWsLine fl || interiorErLine (x :: xs))
            rw [erP_firstLine rest hAny, ← hfl]
        · have hAny2 : rest.any (fun d => d = '\n') = false := Bool.eq_false_iff.mpr hAny
          have hone := splitNl_no_nl rest hAny2
          rw [hsp] at hone
          injection hone with h1 h2
          subst h2
          have hp : ((rest.drop 2).takeWhile pyIsSpace).any (fun d => d = '\n') = false := by
            apply any_false_sublist _ hAny2
            exact (List.takeWhile_sublist _).trans (List.drop_sublist 2 rest)
          rw [hp]
          simp [interiorErLine]
    · rw [decide_eq_false hc]
      simp only [Bool.false_and, Bool.false_or]
      rw [ih]
      cases hsp : splitNl rest with
      | nil => exact absurd hsp (splitNl_ne_nil rest)
      | cons fl tl =>
        have hsp2 : splitNl (c :: rest) = (c :: fl) :: tl := by
          unfold splitNl
          rw [if_neg hc, hsp]
        unfold erSpecLines
        rw [hsp, hsp2]

/-! ### The claims -/

/-- Claim C1.  The spec says a labeled-full-fields input is treated as a single
record span and still yields a record (with absent labels at the sentinel).  The
code has no `full_fields` branch in `_split_records`: such input falls into the
`PMID-` splitter, which finds no marker and produces no record at all, so the
parser silently returns an empty list. -/
theorem c1_full_fields_never_parsed :
    TXTParser.detect_format
        (("Title: Understanding systems\nYear: 2020\nAuthors: A Smith").data)
      = TXTParser.TxtFormat.full_fields ∧
    TXTParser.parse
        (("Title: Understanding systems\nYear: 2020\nAuthors: A Smith").data)
      = [] :=
  ⟨rfl, by decide⟩

/-- Claim C2.  The spec (and the method's docstring) say a record whose title or
DOI is the sentinel is never placed in a duplicate group.  The outer loop only
skips such a record as a *seed*: `_find_title_matches` checks the candidate's
title but not its DOI, so a record with a known title and an unknown DOI is
grouped (and here removed) as a duplicate of a seed with the same title. -/
theorem c2_unknown_doi_grouped :
    ((DuplicateRemover.remove_duplicates
        [⟨("alpha beta").data, semInfo, semInfo, ("10.1/x").data, semInfo⟩,
         ⟨("alpha beta").data, semInfo, semInfo, semInfo, semInfo⟩]).2.map
      (fun d => (d.original_index, d.doi)))
      = [(1, semInfo)] ∧
    (DuplicateRemover.remove_duplicates
        [⟨("alpha beta").data, semInfo, semInfo, ("10.1/x").data, semInfo⟩,
         ⟨("alpha beta").data, semInfo, semInfo, semInfo, semInfo⟩]).1.length = 1 := by
  exact ⟨by decide, by decide⟩

/-- Claim C3 (amended).  Every record produced by the plain-text parser, the
custom RIS fallback, or the schema path (on entries whose provided values are
empty or have a non-empty strip, as `rispy` produces) has each field equal to
the sentinel or non-empty, with every field except the DOI also
whitespace-trimmed.  The original claim additionally asserted a trimmed DOI,
which `_clean_doi` does not guarantee (see the counterexample). -/
theorem c3_fields_sentinel_or_nonempty :
    (∀ (t : PyStr), ∀ a ∈ TXTParser.parse t, articleOkB a = true) ∧
    (∀ (t : PyStr), ∀ a ∈ RISParser.custom_ris_parse t, articleOkB a = true) ∧
    (∀ (e : RISParser.RisEntry), risEntryClean e = true →
      articleOkB (RISParser.extract_ris_fields e) = true) :=
  ⟨fun t a ha => txt_parse_ok t a ha,
   fun t a ha => custom_ris_parse_ok t a ha,
   fun e he => extract_ris_fields_ok e he⟩

theorem c3_fields_witness :
    ((TXTParser.parse (("PMID- 1\nTI  - Hello world\n").data)).getD 0 default
        ∈ TXTParser.parse (("PMID- 1\nTI  - Hello world\n").data)) ∧
    articleOkB
      ((TXTParser.parse (("PMID- 1\nTI  - Hello world\n").data)).getD 0 default) = true ∧
    risEntryClean ⟨some (("T").data), none, [], [], none, none, none, none⟩ = true ∧
    articleOkB (RISParser.extract_ris_fields
      ⟨some (("T").data), none, [], [], none, none, none, none⟩) = true :=
  ⟨by decide,
   c3_fields_sentinel_or_nonempty.1 (("PMID- 1\nTI  - Hello world\n").data) _ (by decide),
   by decide,
   c3_fields_sentinel_or_nonempty.2.2 _ (by decide)⟩

theorem c3_untrimmed_doi :
    (TXTParser.parse (("TI  - Sample\nDO  - 10.1/a .\nER\n").data)).map
        (fun a => articleClaimOkB a) = [false] ∧
    (TXTParser.parse (("TI  - Sample\nDO  - 10.1/a .\nER\n").data)).map
        (fun a => a.doi) = [("10.1/a ").data] := by
  exact ⟨by decide, by decide⟩

/-- Claim C4 (amended).  The field-level DOI cleaner of the parsers
(`_clean_doi`) validates: whenever it returns a value, that value matches
`^10\.\d+/.+` (`10.`, digits, a slash, a non-empty suffix) and is non-empty;
on failure it returns nothing and the field stays at the sentinel.  The
original claim also attributed this validation to `utils.normalize_doi`,
which validates nothing (see the counterexample). -/
theorem c4_clean_doi_validates (s d : PyStr) (h : TXTParser.clean_doi s = some d) :
    match10 d = true ∧ d ≠ [] :=
  clean_doi_some s d h

theorem c4_clean_doi_witness :
    TXTParser.clean_doi (("10.123/abc").data) = some (("10.123/abc").data) ∧
    match10 (("10.123/abc").data) = true :=
  ⟨by decide, (c4_clean_doi_validates (("10.123/abc").data) _ (by decide)).1⟩

theorem c4_normalize_doi_no_validation :
    normalize_doi (("not a doi").data) = ("not a doi").data ∧
    match10 (("not a doi").data) = false := by
  exact ⟨by decide, by decide⟩

/-- Claim C5 (amended).  Re-running the deduplicator on its own survivor output
is the identity (same survivors, empty audit) whenever the survivors are
pairwise unlinked under the title-similarity/same-DOI relation.  The original
unconditional claim is false: one pass does not leave survivors unlinked (see
the counterexample). -/
theorem c5_rerun_identity_of_unlinked (rs : List Article)
    (h : List.Pairwise (fun a b => linkedB a b = false)
      (DuplicateRemover.remove_duplicates rs).1) :
    DuplicateRemover.remove_duplicates ((DuplicateRemover.remove_duplicates rs).1)
      = ((DuplicateRemover.remove_duplicates rs).1, []) :=
  remove_duplicates_id _ h

theorem c5_rerun_witness :
    List.Pairwise (fun a b => linkedB a b = false)
      (DuplicateRemover.remove_duplicates
        [⟨("aa bb").data, semInfo, semInfo, ("10.1/x").data, semInfo⟩,
         ⟨("cc dd").data, semInfo, semInfo, ("10.2/y").data, semInfo⟩]).1 ∧
    DuplicateRemover.remove_duplicates
        ((DuplicateRemover.remove_duplicates
          [⟨("aa bb").data, semInfo, semInfo, ("10.1/x").data, semInfo⟩,
           ⟨("cc dd").data, semInfo, semInfo, ("10.2/y").data, semInfo⟩]).1)
      = ((DuplicateRemover.remove_duplicates
          [⟨("aa bb").data, semInfo, semInfo, ("10.1/x").data, semInfo⟩,
           ⟨("cc dd").data, semInfo, semInfo, ("10.2/y").data, semInfo⟩]).1, []) :=
  ⟨by decide, c5_rerun_identity_of_unlinked _ (by decide)⟩

theorem c5_not_idempotent :
    (DuplicateRemover.remove_duplicates
        [⟨("aa bb").data, semInfo, semInfo, ("10.1/d").data, semInfo⟩,
         ⟨("cc dd").data, semInfo, semInfo, ("10.1/d").data,
            ("twenty one characters").data⟩,
         ⟨("cc dd").data, semInfo, semInfo, ("10.2/x").data, semInfo⟩]).1.length = 2 ∧
    (DuplicateRemover.remove_duplicates
      ((DuplicateRemover.remove_duplicates
        [⟨("aa bb").data, semInfo, semInfo, ("10.1/d").data, semInfo⟩,
         ⟨("cc dd").data, semInfo, semInfo, ("10.1/d").data,
            ("twenty one characters").data⟩,
         ⟨("cc dd").data, semInfo, semInfo, ("10.2/x").data, semInfo⟩]).1)).2.length
      = 1 := by
  exact ⟨by decide, by decide⟩

/-- Claim C6 (amended).  Grouping is one-shot, not transitive: the group formed
for a seed record consists of the records *directly* linked to the seed
(title-similar or same normalized DOI).  When every record of the input is
directly linked to the first one (all with known title and DOI), they all merge
into a single group with exactly one survivor and one audit entry per removed
record.  The original transitive-chain claim is false (see the
counterexample). -/
theorem c6_all_linked_single_group (r0 : Article) (rest : List Article)
    (hknown : ∀ a ∈ r0 :: rest, a.title ≠ semInfo ∧ a.doi ≠ semInfo)
    (hlink : ∀ a ∈ r0 :: rest, linkedB r0 a = true) :
    (DuplicateRemover.remove_duplicates (r0 :: rest)).1.length = 1 ∧
    (DuplicateRemover.remove_duplicates (r0 :: rest)).2.length = rest.length :=
  remove_duplicates_all_linked r0 rest hknown hlink

theorem c6_group_witness :
    (∀ a ∈ [(⟨("aa bb").data, semInfo, semInfo, ("10.1/d").data, semInfo⟩ : Article),
            ⟨("zz yy").data, semInfo, semInfo, ("10.1/d").data, semInfo⟩],
      a.title ≠ semInfo ∧ a.doi ≠ semInfo) ∧
    (∀ a ∈ [(⟨("aa bb").data, semInfo, semInfo, ("10.1/d").data, semInfo⟩ : Article),
            ⟨("zz yy").data, semInfo, semInfo, ("10.1/d").data, semInfo⟩],
      linkedB ⟨("aa bb").data, semInfo, semInfo, ("10.1/d").data, semInfo⟩ a = true) ∧
    (DuplicateRemover.remove_duplicates
        [⟨("aa bb").data, semInfo, semInfo, ("10.1/d").data, semInfo⟩,
         ⟨("zz yy").data, semInfo, semInfo, ("10.1/d").data, semInfo⟩]).1.length = 1 ∧
    (DuplicateRemover.remove_duplicates
        [⟨("aa bb").data, semInfo, semInfo, ("10.1/d").data, semInfo⟩,
         ⟨("zz yy").data, semInfo, semInfo, ("10.1/d").data, semInfo⟩]).2.length = 1 :=
  ⟨by decide, by decide,
   c6_all_linked_single_group _ _ (by decide) (by decide)⟩

theorem c6_chain_not_merged :
    linkedB ⟨("aa bb").data, semInfo, semInfo, ("10.1/d").data, semInfo⟩
      ⟨("cc dd").data, semInfo, semInfo, ("10.1/d").data,
        ("twenty one characters").data⟩ = true ∧
    linkedB ⟨("cc dd").data, semInfo, semInfo, ("10.1/d").data,
        ("twenty one characters").data⟩
      ⟨("cc dd").data, semInfo, semInfo, ("10.2/x").data, semInfo⟩ = true ∧
    (DuplicateRemover.remove_duplicates
        [⟨("aa bb").data, semInfo, semInfo, ("10.1/d").data, semInfo⟩,
         ⟨("cc dd").data, semInfo, semInfo, ("10.1/d").data,
            ("twenty one characters").data⟩,
         ⟨("cc dd").data, semInfo, semInfo, ("10.2/x").data, semInfo⟩]).1.length
      = 2 := by
  exact ⟨by decide, by decide, by decide⟩

/-- Claim C7 (amended).  `normalize_doi` applied to its own output is the
identity whenever that output is stable: it is the sentinel, or it contains
none of the four strippable prefixes, is whitespace-trimmed, and does not end
in `.`, `,` or `;`.  The unconditional projection claim is false: stripping
trailing punctuation can expose trailing whitespace that only a second pass
removes (see the counterexample). -/
theorem c7_normalize_doi_idem_of_stable (s : PyStr)
    (h : normalizeDoiStable (normalize_doi s) = true) :
    normalize_doi (normalize_doi s) = normalize_doi s :=
  normalize_doi_stable_idem s h

theorem c7_idem_witness :
    normalizeDoiStable (normalize_doi (("doi:10.1/x").data)) = true ∧
    normalize_doi (normalize_doi (("doi:10.1/x").data))
      = normalize_doi (("doi:10.1/x").data) :=
  ⟨by decide, c7_normalize_doi_idem_of_stable _ (by decide)⟩

theorem c7_not_projection :
    normalize_doi (normalize_doi (("10.1/a .").data))
      ≠ normalize_doi (("10.1/a .").data) := by decide

/-- Claim C8 (amended).  `extract_year_from_date` returns the text of the first
word-boundary-delimited `(19|20)dd` token of the input, and the sentinel when
there is none.  The claim's two extras are both false of this function: the
token must sit at word boundaries (not "anywhere"), and there is no
verbatim-accept fallback for a 4-digit input (that fallback exists only in the
plain-text field processors; see the counterexample). -/
theorem c8_year_first_boundary_match (s : PyStr) :
    extract_year_from_date s =
      (match specYearFirst s with
       | some y => y
       | none => semInfo) :=
  extract_year_spec s

theorem c8_fallback_and_boundary_diverge :
    extract_year_from_date (("3000").data) = semInfo ∧
    claimYearSpec (("3000").data) = ("3000").data ∧
    extract_year_from_date (("x1999").data) = semInfo ∧
    claimYearSpec (("x1999").data) = ("1999").data := by
  exact ⟨by decide, by decide, by decide, by decide⟩

/-- Claim C9 (amended).  The detector evaluates the five rules top to bottom
with first match winning, but rule 3 is stricter than "a line consisting solely
of `ER`": the regex `\nER\s*\n` requires a newline before the `ER` and a
newline closing its trailing whitespace, so the `ER` line may carry trailing
whitespace but must be neither the first nor the last line of the input. -/
theorem c9_detector_five_rules (t : PyStr) :
    TXTParser.detect_format t = detectFormatAmended t := by
  unfold TXTParser.detect_format detectFormatAmended
  rw [containsErLine_spec]

theorem c9_er_first_line_diverges :
    TXTParser.detect_format (("ER\nPMID- 1").data) = TXTParser.TxtFormat.pubmed ∧
    detectFormatClaim (("ER\nPMID- 1").data) = TXTParser.TxtFormat.er_terminated :=
  ⟨rfl, rfl⟩

/-- Claim C10.  Every record the plain-text parser returns has at least one
field different from the sentinel (all-unknown extractions are filtered out),
while the RIS fallback parser applies no such filter: a record with no
recognised tag comes back with all five fields at the sentinel. -/
theorem c10_txt_filter_ris_no_filter :
    (∀ (t : PyStr), ∀ a ∈ TXTParser.parse t, anyKnown a = true) ∧
    allSem ∈ RISParser.custom_ris_parse (("XX  - y").data) :=
  ⟨fun _ _ ha => (List.mem_filter.mp ha).2, by decide⟩

theorem c10_filter_witness :
    ((TXTParser.parse (("PMID- 2\nTI  - World\n").data)).getD 0 default
        ∈ TXTParser.parse (("PMID- 2\nTI  - World\n").data)) ∧
    anyKnown ((TXTParser.parse (("PMID- 2\nTI  - World\n").data)).getD 0 default)
      = true :=
  ⟨by decide, c10_txt_filter_ris_no_filter.1 (("PMID- 2\nTI  - World\n").data) _ (by decide)⟩
